import Mathlib

/-!
Verification of the dynamic schema-management mixin (`fiftyone/core/odm/mixins.py`).

This file gives a shallow embedding of the module's data model and operations:

* `Field` / `FKind` — field descriptors with a recursive embedded-document schema,
  mirroring `fiftyone.core.fields` descriptors as used by the mixin;
* `Registry` — the per-class field registry (`cls._fields` plus `cls._fields_ordered`);
* `DatasetDoc` — the persisted dataset document (field-descriptor lists, media type,
  group field, app config);
* `GState` — the global state threaded through operations: registry, dataset document,
  a trace of physical storage operations, and a trace of saved document snapshots.

Operations (`renameFields`, `cloneFields`, `deleteFields`, `mergeFieldSchema`,
`extractExtraUpdates`, ...) are translated from the source.  External collaborators
that the excerpt consumes but does not define (naming-rule validation, group-field
detection, the embedded-document recursive merge) are modelled from the spec and
flagged as such in their doc comments.
-/

namespace FO

/-! ## Python-style dicts as association lists

`cls._fields` is a Python dict: unique keys, insertion order, in-place replacement
on assignment to an existing key, removal via `pop` / `del`. -/

/-- An association list with string keys, standing in for a Python dict. -/
abbrev Dict (α : Type) : Type := List (String × α)

/-- Lookup a key, returning the first (and, by the dict invariant, only) value. -/
def dget {α : Type} : Dict α → String → Option α
  | [], _ => none
  | p :: d, k => if p.1 == k then some p.2 else dget d k

/-- Key membership test. -/
def dmem {α : Type} (d : Dict α) (k : String) : Bool :=
  (dget d k).isSome

/-- Remove a key (Python `pop` / `del`). -/
def ddel {α : Type} : Dict α → String → Dict α
  | [], _ => []
  | p :: d, k => if p.1 == k then ddel d k else p :: ddel d k

/-- Replace the value at a key, in place. -/
def drepl {α : Type} : Dict α → String → α → Dict α
  | [], _, _ => []
  | p :: d, k, v => if p.1 == k then (k, v) :: drepl d k v else p :: drepl d k v

/-- Python dict assignment `d[k] = v`: replace in place if `k` is present,
otherwise append at the end. -/
def dsetP {α : Type} (d : Dict α) (k : String) (v : α) : Dict α :=
  if dmem d k then drepl d k v else d ++ [(k, v)]

/-- The list of keys in order. -/
def dkeys {α : Type} : Dict α → List String
  | [] => []
  | p :: d => p.1 :: dkeys d

/-! ## Field descriptors

`Field` mirrors the attributes of `fiftyone.core.fields.Field` that the mixin
reads and writes: `name`, `db_field`, `required`, `null`, and the type, with the
embedded-document subtype carrying its own subfield schema (the embedded class's
`_fields`) so that dotted-path resolution can recurse. -/

mutual

/-- The type tag of a field descriptor.  `groupK` marks a group-membership field
(`fog.is_group_field`); `listK` carries the optional contained field (`doc.field`);
`embeddedK` carries the embedded document type name and its subfield schema. -/
inductive FKind : Type where
  | objectIdK : FKind
  | groupK : FKind
  | scalarK (tag : String) : FKind
  | listK (elem : Option Field) : FKind
  | embeddedK (doctype : String) (subfields : List Field) : FKind

/-- A field descriptor: logical name, optional physical storage name (`db_field`),
type, and the `required` / `null` flags. -/
inductive Field : Type where
  | mk (name : String) (db_field : Option String) (kind : FKind)
      (required : Bool) (null : Bool) : Field

end

/-- The logical name of a field descriptor. -/
def Field.name : Field → String
  | .mk n _ _ _ _ => n

/-- The physical storage name of a field descriptor, when it differs. -/
def Field.db_field : Field → Option String
  | .mk _ d _ _ _ => d

/-- The type tag of a field descriptor. -/
def Field.kind : Field → FKind
  | .mk _ _ k _ _ => k

/-- The `required` flag. -/
def Field.required : Field → Bool
  | .mk _ _ _ r _ => r

/-- The `null` flag. -/
def Field.null : Field → Bool
  | .mk _ _ _ _ u => u

/-- Replace the logical name (`field.name = ...`). -/
def Field.withName : Field → String → Field
  | .mk _ d k r u, n => .mk n d k r u

/-- Replace the storage name (`field.db_field = ...`). -/
def Field.withDb : Field → Option String → Field
  | .mk n _ k r u, d => .mk n d k r u

/-- Replace the `required` and `null` flags (used by `_declare_field` when a field
is redeclared, to preserve instance-data compatibility). -/
def Field.withReqNull : Field → Bool → Bool → Field
  | .mk n d k _ _, r, u => .mk n d k r u

/-- Whether the descriptor is an embedded-document field
(`isinstance(..., fof.EmbeddedDocumentField)`). -/
def Field.isEmbedded (f : Field) : Bool :=
  match f.kind with
  | .embeddedK _ _ => true
  | _ => false

/-- The subfield schema of an embedded-document field, empty otherwise. -/
def Field.subfields (f : Field) : List Field :=
  match f.kind with
  | .embeddedK _ sub => sub
  | _ => []

/-- Modelled from the spec: `fog.is_group_field` (the group-membership detector
lives in `fiftyone.core.groups`, outside the excerpt).  A field is a group field
exactly when its type is the group-marker type. -/
def isGroupField (f : Field) : Bool :=
  match f.kind with
  | .groupK => true
  | _ => false

/-! ## Errors

Structured counterparts of the `ValueError` / `AttributeError` / `KeyError`
messages the source raises; each carries the offending field name or path. -/

/-- The errors raised by the schema-mutation operations. -/
inductive Err : Type where
  | defaultField (name : String)
  | notFound (name : String)
  | alreadyExists (name : String)
  | invalidName (name : String)
  | cloneGroup (name : String)
  | frameGroup (name : String)
  | secondGroup (name : String)
  | schemaConflict (path : String)
  | nonexistentRoot (root : String) (path : String)
  | notEmbedded (root : String) (path : String)
  | fieldsDoNotExist (paths : List String)
  | embeddedRootUndefined (root : String) (path : String)
  | keyError (name : String)
  | filteredRootModify (key : String)
  | badListIndex (chunk : String)
  | missingValue (name : String)
  deriving DecidableEq

/-! ## Dataset document and global state -/

/-- The persisted per-field descriptor document (`SampleFieldDocument`): name,
storage name, and subfield documents for embedded fields. -/
inductive FieldDoc : Type where
  | mk (name : String) (db_field : Option String) (fields : List FieldDoc) : FieldDoc

/-- The name recorded in a field document. -/
def FieldDoc.name : FieldDoc → String
  | .mk n _ _ => n

/-- The storage name recorded in a field document. -/
def FieldDoc.db_field : FieldDoc → Option String
  | .mk _ d _ => d

/-- The subfield documents of a field document. -/
def FieldDoc.fields : FieldDoc → List FieldDoc
  | .mk _ _ fs => fs

mutual

/-- Modelled from the spec: `SampleFieldDocument.from_field` (defined in
`odm/dataset.py`, outside the excerpt) — the persisted descriptor mirrors the
field's name, storage name, and embedded subfields. -/
def FieldDoc.ofField : Field → FieldDoc
  | .mk n d (.embeddedK _ sub) _ _ => .mk n d (FieldDoc.ofFields sub)
  | .mk n d _ _ _ => .mk n d []

/-- Map `FieldDoc.ofField` over a subfield list. -/
def FieldDoc.ofFields : List Field → List FieldDoc
  | [] => []
  | f :: fs => FieldDoc.ofField f :: FieldDoc.ofFields fs

end

/-- The app-level saved-path bookkeeping (`dataset_doc.app_config`), modelled as
a log of the `_rename_paths` / `_delete_paths` calls the mixin issues. -/
structure AppConfig : Type where
  renameCalls : List (List String × List String)
  deleteCalls : List (List String)
  deriving DecidableEq

/-- The dataset document: media type, designated group field, the two persisted
field-descriptor lists, and the app config. -/
structure DatasetDoc : Type where
  media_type : String
  group_field : Option String
  sample_fields : List FieldDoc
  frame_fields : List FieldDoc
  app_config : AppConfig


/-- The media-type tag for grouped datasets (`fom.GROUP`). -/
def GROUP : String := "group"

/-- The field list of the dataset document for the given class
(`dataset_doc[cls._fields_attr()]`). -/
def DatasetDoc.fieldsAttr (doc : DatasetDoc) (isFrames : Bool) : List FieldDoc :=
  if isFrames then doc.frame_fields else doc.sample_fields

/-- Replace the field list of the dataset document for the given class. -/
def DatasetDoc.setFieldsAttr (doc : DatasetDoc) (isFrames : Bool)
    (fs : List FieldDoc) : DatasetDoc :=
  if isFrames then { doc with frame_fields := fs }
  else { doc with sample_fields := fs }

/-- The in-process field registry of one record class: `cls._fields` (a dict from
name to descriptor) and `cls._fields_ordered` (a tuple of names). -/
structure Registry : Type where
  fields : Dict Field
  fields_ordered : List String


/-- A physical storage operation issued through `collection.update_many`, keyed
by storage names. -/
inductive StorageOp : Type where
  | renameOp (expr : Dict String)
  | cloneOp (expr : Dict String)
  | clearOp (fields : List String)
  | unsetOp (fields : List String)


/-- The global state a schema mutation touches: the class registry, the
in-memory dataset document, the trace of storage operations issued so far, and
the trace of dataset-document snapshots persisted by `dataset_doc.save()`. -/
structure GState : Type where
  reg : Registry
  doc : DatasetDoc
  storage : List StorageOp
  savedDocs : List DatasetDoc


/-- Record a `dataset_doc.save()` call by snapshotting the in-memory document. -/
def saveDoc (st : GState) : GState :=
  { st with savedDocs := st.savedDocs ++ [st.doc] }

/-- The static environment: the naming-rule validator (modelled from the spec:
`validate_field_name` lives in `odm/utils.py`, outside the excerpt; it is
parameterized by the candidate name, the media type, and the frame-context flag)
and the base-class default field names
(`get_default_fields(cls.__bases__[0], include_private=True)`). -/
structure Env : Type where
  validateName : String → String → Bool → Bool
  baseDefaults : List String

/-- Translation of `_get_default_fields`: the base-class defaults, plus the
designated group field when a dataset document is supplied, the media type is
grouped, and the class is not the frame class. -/
def getDefaultFields (env : Env) (datasetDoc : Option DatasetDoc)
    (isFrames : Bool) : List String :=
  match datasetDoc with
  | some doc =>
      if doc.media_type == GROUP && !isFrames then
        env.baseDefaults ++ (match doc.group_field with
          | some g => [g]
          | none => [])
      else env.baseDefaults
  | none => env.baseDefaults

/-! ## Registry-level operations -/

/-- Translation of the module-level helper `_get_db_field`: `None` stays `None`;
a storage name that is the logical name prefixed with an underscore keeps that
convention for the new name; any other storage name becomes the new name. -/
def getDbField (field : Field) (new_field_name : String) : Option String :=
  match field.db_field with
  | none => none
  | some d =>
      if d == "_" ++ field.name then some ("_" ++ new_field_name)
      else some new_field_name

/-- Translation of `_declare_field` (registry component): pop any previous entry
and re-insert under the field's name; a replacement inherits the previous
descriptor's `required` / `null` flags; the ordered name sequence is extended
only for genuinely new names. -/
def declareField (reg : Registry) (field : Field) : Registry :=
  let prev := dget reg.fields field.name
  let field := match prev with
    | some p => field.withReqNull p.required p.null
    | none => field
  let fields := ddel reg.fields field.name ++ [(field.name, field)]
  match prev with
  | none => { fields := fields, fields_ordered := reg.fields_ordered ++ [field.name] }
  | some _ => { fields := fields, fields_ordered := reg.fields_ordered }

/-- Translation of `_rename_field_schema` (registry component): pop the old
entry (a missing name is a `KeyError`), recompute the storage name via
`_get_db_field`, update the logical name, re-insert under the new name, and map
the old name to the new name in the ordered sequence. -/
def renameFieldReg (reg : Registry) (field_name new_field_name : String) :
    Except Err (Registry × Field) :=
  match dget reg.fields field_name with
  | none => .error (.keyError field_name)
  | some field =>
      let new_db_field := getDbField field new_field_name
      let field := (field.withName new_field_name).withDb new_db_field
      let fields := dsetP (ddel reg.fields field_name) new_field_name field
      let ordered := reg.fields_ordered.map
        (fun fn => if fn == field_name then new_field_name else fn)
      .ok ({ fields := fields, fields_ordered := ordered }, field)

/-- Translation of `_delete_field_schema` (registry component): `del` the entry
(a missing name is a `KeyError`) and filter the ordered sequence. -/
def deleteFieldReg (reg : Registry) (field_name : String) :
    Except Err Registry :=
  if dmem reg.fields field_name then
    .ok { fields := ddel reg.fields field_name,
          fields_ordered := reg.fields_ordered.filter (fun fn => !(fn == field_name)) }
  else .error (.keyError field_name)

/-! ## String helpers

Kernel-friendly versions of the Python string operations the source uses
(`split(".")`, `startswith`, slicing, `lstrip(".")`, `count(".")`). -/

/-- Split a character list on the dot character (Python `s.split(".")`). -/
def splitDotsAux : List Char → List Char → List (List Char)
  | acc, [] => [acc.reverse]
  | acc, c :: cs =>
      if c == '.' then acc.reverse :: splitDotsAux [] cs
      else splitDotsAux (c :: acc) cs

/-- Split a string on dots; always returns a nonempty list, like Python. -/
def splitDots (s : String) : List String :=
  (splitDotsAux [] s.data).map (fun l => ⟨l⟩)

/-- Whether `p` is a prefix of `s` (Python `s.startswith(p)`). -/
def strStarts (s p : String) : Bool :=
  p.data.isPrefixOf s.data

/-- Drop the first `n` characters (Python `s[n:]`). -/
def strDrop (s : String) (n : Nat) : String :=
  ⟨s.data.drop n⟩

/-- Strip leading dots (Python `s.lstrip(".")`). -/
def lstripDots (s : String) : String :=
  ⟨s.data.dropWhile (fun c => c == '.')⟩

/-- Count the dots in a string (Python `s.count(".")`). -/
def countDots (s : String) : Nat :=
  s.data.count '.'

/-- Join a list of strings with dots (Python `".".join(l)`). -/
def joinDots : List String → String
  | [] => ""
  | [s] => s
  | s :: rest => s ++ "." ++ joinDots rest

/-! ## Field merging -/

/-- The structural type tag used for compatibility comparison. -/
def FKind.tag : FKind → String
  | .objectIdK => "ObjectIdField"
  | .groupK => "GroupField"
  | .scalarK t => t
  | .listK _ => "ListField"
  | .embeddedK t _ => "EmbeddedDocumentField:" ++ t

/-- Modelled from the spec: `validate_fields_match` (defined in `odm/utils.py`,
outside the excerpt) — the structural-compatibility check between an incoming
and an existing descriptor, failing with a schema-conflict error naming the
path; modelled as agreement of the structural type tags. -/
def validateFieldsMatch (path : String) (field existing : Field) :
    Except Err Unit :=
  if field.kind.tag == existing.kind.tag then .ok ()
  else .error (.schemaConflict path)

/-- Whether a descriptor is an ObjectId field (`isinstance(field, fof.ObjectIdField)`). -/
def isObjectIdKind : FKind → Bool
  | .objectIdK => true
  | _ => false

mutual

/-- Modelled from the spec: `EmbeddedDocumentField._merge_fields` (defined on the
field type, outside the excerpt) — the recursive merge into an existing embedded
document schema: each incoming subfield is compared against the existing
subschema by name; matching embedded subfields recurse, other matches are
validated for compatibility, and misses are collected as genuinely-new
`(path, field)` pairs. -/
def embMergeFields (path : String) (existing incoming : Field)
    (validate recursive : Bool) : Except Err (List (String × Field)) :=
  match incoming with
  | .mk _ _ (.embeddedK _ subIn) _ _ =>
      match existing with
      | .mk _ _ (.embeddedK _ subEx) _ _ =>
          embMergeList path subEx subIn validate recursive
      | _ => if validate then .error (.schemaConflict path) else .ok []
  | _ =>
      if validate then
        match validateFieldsMatch path incoming existing with
        | .ok _ => .ok []
        | .error e => .error e
      else .ok []

/-- The subfield loop of the recursive embedded merge. -/
def embMergeList (path : String) (subEx : List Field) (subIn : List Field)
    (validate recursive : Bool) : Except Err (List (String × Field)) :=
  match subIn with
  | [] => .ok []
  | sf :: rest =>
      match (match subEx.find? (fun g => g.name == sf.name) with
        | some g =>
            if recursive && g.isEmbedded then
              embMergeFields (path ++ "." ++ sf.name) g sf validate recursive
            else
              if validate then
                match validateFieldsMatch (path ++ "." ++ sf.name) sf g with
                | .ok _ => .ok ([] : List (String × Field))
                | .error e => .error e
              else .ok []
        | none => .ok [(path ++ "." ++ sf.name, sf)]) with
      | .error e => .error e
      | .ok here =>
          match embMergeList path subEx rest validate recursive with
          | .error e => .error e
          | .ok more => .ok (here ++ more)

end

/-- View an embedded subfield list as a lookup dict keyed by field name. -/
def subview (sub : List Field) : Dict Field :=
  sub.map (fun f => (f.name, f))

/-- Translation of the non-terminal-segment walk shared by `_merge_field`: each
chunk must name an existing field of the current container; one level of
list-container indirection is unwrapped; the result must be an embedded-document
field.  Returns the leaf container's schema as a lookup dict. -/
def walkChunks (path : String) : Dict Field → Option String → List String →
    Except Err (Dict Field)
  | sch, _, [] => .ok sch
  | sch, root0, chunk :: rest =>
      let root := match root0 with
        | none => chunk
        | some r => r ++ "." ++ chunk
      match dget sch chunk with
      | none => .error (.nonexistentRoot root path)
      | some f0 =>
          let fo : Option Field := match f0.kind with
            | .listK e => e
            | _ => some f0
          match fo with
          | none => .error (.notEmbedded root path)
          | some f =>
              match f.kind with
              | .embeddedK _ sub => walkChunks path (subview sub) (some root) rest
              | _ => .error (.notEmbedded root path)

/-- Translation of `_merge_field`: resolve the dotted path; strip the leading
underscore of an ObjectId-typed leaf; silently accept a literal `id` leaf; for
an existing leaf either recurse into an embedded schema or validate
compatibility; for a new leaf validate the name and the group-field constraints
and return the `(path, field)` pair. -/
def mergeField (env : Env) (isFrames : Bool) (reg : Registry) (doc : DatasetDoc)
    (path : String) (field : Field) (validate recursive : Bool) :
    Except Err (List (String × Field)) :=
  let chunks := splitDots path
  let field_name0 := chunks.getLastD ""
  match walkChunks path reg.fields none chunks.dropLast with
  | .error e => .error e
  | .ok sch =>
  let field_name :=
    if isObjectIdKind field.kind && strStarts field_name0 "_" then
      strDrop field_name0 1
    else field_name0
  if field_name == "id" then .ok [] else
  match dget sch field_name with
  | some existing =>
      if recursive && existing.isEmbedded then
        embMergeFields path existing field validate recursive
      else
        if validate then
          match validateFieldsMatch path field existing with
          | .ok _ => .ok []
          | .error e => .error e
        else .ok []
  | none =>
      if !(env.validateName field_name doc.media_type isFrames) then
        .error (.invalidName field_name)
      else if isGroupField field then
        if isFrames then .error (.frameGroup field_name)
        else
          match doc.group_field with
          | some g =>
              if g == field_name then .ok [(path, field)]
              else .error (.secondGroup field_name)
          | none => .ok [(path, field)]
      else .ok [(path, field)]

/-! ## Adding a field to registry and schema document (`_add_field_schema`) -/

/-- Rebuild a walked container field with an updated embedded subfield list,
undoing the one level of list unwrapping. -/
def putSub (f0 : Field) (sub : List Field) : Field :=
  match f0 with
  | .mk n d (.embeddedK t _) r u => .mk n d (.embeddedK t sub) r u
  | .mk n d (.listK (some (.mk ne de (.embeddedK t _) re ue))) r u =>
      .mk n d (.listK (some (.mk ne de (.embeddedK t sub) re ue))) r u
  | f => f

/-- Modelled from the spec: the embedded class's `_declare_field` (the leaf
`doc._declare_field(field)` call when `doc` is an embedded document class,
outside the excerpt) — same insert-or-replace semantics as the mixin's own
`_declare_field`, on the embedded subfield list. -/
def embedDeclare (sub : List Field) (field : Field) : List Field :=
  match sub.find? (fun g => g.name == field.name) with
  | some p =>
      sub.filter (fun g => !(g.name == field.name))
        ++ [field.withReqNull p.required p.null]
  | none => sub ++ [field]

/-- The embedded-level walk of `_add_field_schema`: find the chunk among the
field documents (error if it has not been defined), look it up in the embedded
schema, unwrap a list container, require an embedded-document field, recurse,
and rebuild both sides. -/
def addEmbeddedAux (path : String) (field1 : Field) :
    List String → String → List Field → List FieldDoc →
    Except Err (List Field × List FieldDoc)
  | [], _, sub, docs =>
      .ok (embedDeclare sub field1, docs ++ [FieldDoc.ofField field1])
  | chunk :: rest, root0, sub, docs =>
      let root := root0 ++ "." ++ chunk
      match docs.findIdx? (fun fd => fd.name == chunk) with
      | none => .error (.embeddedRootUndefined root path)
      | some i =>
          match docs.get? i with
          | none => .error (.embeddedRootUndefined root path)
          | some fd =>
              match dget (subview sub) chunk with
              | none => .error (.keyError chunk)
              | some f0 =>
                  let fo : Option Field := match f0.kind with
                    | .listK e => e
                    | _ => some f0
                  match fo with
                  | none => .error (.notEmbedded root path)
                  | some f =>
                      match f.kind with
                      | .embeddedK _ innerSub =>
                          match addEmbeddedAux path field1 rest root innerSub fd.fields with
                          | .error e => .error e
                          | .ok (innerSub2, innerDocs) =>
                              let sub2 := sub.map (fun g =>
                                if g.name == chunk then putSub g innerSub2 else g)
                              let docs2 := docs.set i (.mk fd.name fd.db_field innerDocs)
                              .ok (sub2, docs2)
                      | _ => .error (.notEmbedded root path)

/-- Translation of `_add_field_schema`: copy the descriptor, recompute its
storage name for the leaf name via `_get_db_field`, adopt the leaf name, then
declare it into the (possibly embedded) registry schema and append its field
document at the resolved position of the dataset document. -/
def addFieldSchema (isFrames : Bool) (path : String) (field : Field)
    (st : GState) : Except Err Unit × GState :=
  let chunks := splitDots path
  let name := chunks.getLastD ""
  let field1 := (field.withDb (getDbField field name)).withName name
  match chunks.dropLast with
  | [] =>
      let reg := declareField st.reg field1
      let docFields := st.doc.fieldsAttr isFrames ++ [FieldDoc.ofField field1]
      (.ok (), { st with reg := reg, doc := st.doc.setFieldsAttr isFrames docFields })
  | chunk :: rest =>
      let docs := st.doc.fieldsAttr isFrames
      match docs.findIdx? (fun fd => fd.name == chunk) with
      | none => (.error (.embeddedRootUndefined chunk path), st)
      | some i =>
          match docs.get? i with
          | none => (.error (.embeddedRootUndefined chunk path), st)
          | some fd =>
              match dget st.reg.fields chunk with
              | none => (.error (.keyError chunk), st)
              | some f0 =>
                  let fo : Option Field := match f0.kind with
                    | .listK e => e
                    | _ => some f0
                  match fo with
                  | none => (.error (.notEmbedded chunk path), st)
                  | some f =>
                      match f.kind with
                      | .embeddedK _ innerSub =>
                          match addEmbeddedAux path field1 rest chunk innerSub fd.fields with
                          | .error e => (.error e, st)
                          | .ok (innerSub2, innerDocs) =>
                              let f0' := putSub f0 innerSub2
                              let reg2 : Registry :=
                                { st.reg with fields := dsetP st.reg.fields chunk f0' }
                              let docs2 := docs.set i (.mk fd.name fd.db_field innerDocs)
                              let doc2 := st.doc.setFieldsAttr isFrames docs2
                              (.ok (), { st with reg := reg2, doc := doc2 })
                      | _ => (.error (.notEmbedded chunk path), st)

/-! ## `merge_field_schema` -/

/-- The pure collection phase of `merge_field_schema`: run `_merge_field` over
each input entry in order, accumulating genuinely-new fields with dict-update
semantics. -/
def collectNewFields (env : Env) (isFrames : Bool) (reg : Registry)
    (doc : DatasetDoc) (validate recursive : Bool) :
    List (String × Field) → Dict Field → Except Err (Dict Field)
  | [], acc => .ok acc
  | (path, field) :: rest, acc =>
      match mergeField env isFrames reg doc path field validate recursive with
      | .error e => .error e
      | .ok nf =>
          collectNewFields env isFrames reg doc validate recursive rest
            (nf.foldl (fun a p => dsetP a p.1 p.2) acc)

/-- The expansion loop of `merge_field_schema`: add each new field via
`_add_field_schema`, stopping (with the partial state) at the first error. -/
def addSchemaLoop (isFrames : Bool) : List (String × Field) → GState →
    Except Err Unit × GState
  | [], st => (.ok (), st)
  | (path, field) :: rest, st =>
      match addFieldSchema isFrames path field st with
      | (.error e, st) => (.error e, st)
      | (.ok _, st) => addSchemaLoop isFrames rest st

/-- Translation of `merge_field_schema`: collect all genuinely-new fields; if
any exist while `expand_schema` is false, fail listing every new path; if none
exist, return `False`; otherwise add every new field and save the dataset
document, returning `True`. -/
def mergeFieldSchema (env : Env) (isFrames : Bool)
    (schema : List (String × Field)) (expand recursive validate : Bool)
    (st : GState) : Except Err Bool × GState :=
  match collectNewFields env isFrames st.reg st.doc validate recursive schema [] with
  | .error e => (.error e, st)
  | .ok ns =>
      if !ns.isEmpty && !expand then (.error (.fieldsDoNotExist (dkeys ns)), st)
      else if ns.isEmpty then (.ok false, st)
      else
        match addSchemaLoop isFrames ns st with
        | (.error e, st) => (.error e, st)
        | (.ok _, st) => (.ok true, saveDoc st)

/-! ## Storage-name translation and the simple storage rewriters -/

/-- Translation of `_handle_db_field` (pair form): translate a logical
`(old, new)` pair to storage names, falling back to the logical names when the
field is unknown or has no storage name. -/
def handleDbFieldPair (reg : Registry) (field_name new_field_name : String) :
    String × String :=
  match dget reg.fields field_name with
  | none => (field_name, new_field_name)
  | some field =>
      match field.db_field with
      | none => (field_name, new_field_name)
      | some db =>
          match getDbField field new_field_name with
          | some x => (db, x)
          | none => (db, new_field_name)

/-- Translation of `_handle_db_field` (single form). -/
def handleDbField1 (reg : Registry) (field_name : String) : String :=
  match dget reg.fields field_name with
  | none => field_name
  | some field => field.db_field.getD field_name

/-- Translation of `_rename_fields_simple`: issue one bulk storage rename keyed
by the storage-name pairs (no-op on an empty list). -/
def renameFieldsSimple (fns nfns : List String) (st : GState) : GState :=
  if fns.isEmpty then st
  else
    let prs := (fns.zip nfns).map (fun p => handleDbFieldPair st.reg p.1 p.2)
    let rename_expr := prs.foldl (fun d p => dsetP d p.1 p.2) ([] : Dict String)
    { st with storage := st.storage ++ [.renameOp rename_expr] }

/-- Translation of `_clone_fields_simple`: issue one bulk set-from-existing
storage operation keyed by the storage-name pairs. -/
def cloneFieldsSimple (fns nfns : List String) (st : GState) : GState :=
  if fns.isEmpty then st
  else
    let prs := (fns.zip nfns).map (fun p => handleDbFieldPair st.reg p.1 p.2)
    let set_expr := prs.foldl (fun d p => dsetP d p.2 ("$" ++ p.1)) ([] : Dict String)
    { st with storage := st.storage ++ [.cloneOp set_expr] }

/-- Translation of `_delete_fields_simple`: issue one bulk unset storage
operation on the storage names. -/
def deleteFieldsSimple (fns : List String) (st : GState) : GState :=
  if fns.isEmpty then st
  else
    let dbns := fns.map (handleDbField1 st.reg)
    { st with storage := st.storage ++ [.unsetOp dbns] }

/-! ## Batch rename -/

/-- Translation of the validation loop of `_rename_fields`, including the
in-loop group-field redesignation.  An error carries the group designation
accumulated so far, since the in-memory document keeps it when the loop aborts. -/
def renameValidatePairs (env : Env) (media : String) (isFrames : Bool)
    (defaults : List String) (reg : Registry) :
    List (String × String) → Option String →
    Except (Err × Option String) (Option String)
  | [], gf => .ok gf
  | (fn, nfn) :: rest, gf =>
      if defaults.contains fn then .error (.defaultField fn, gf)
      else
        match dget reg.fields fn with
        | none => .error (.notFound fn, gf)
        | some existing =>
            if dmem reg.fields nfn then .error (.alreadyExists nfn, gf)
            else if !(env.validateName nfn media isFrames) then
              .error (.invalidName nfn, gf)
            else
              renameValidatePairs env media isFrames defaults reg rest
                (if isGroupField existing then some nfn else gf)

/-- Translation of `_rename_field_schema` (full): rename the registry entry and
rewrite every matching entry of the persisted field-descriptor list. -/
def renameFieldSchemaSt (isFrames : Bool) (fn nfn : String) (st : GState) :
    Except Err Unit × GState :=
  match renameFieldReg st.reg fn nfn with
  | .error e => (.error e, st)
  | .ok (reg, field) =>
      let docs := (st.doc.fieldsAttr isFrames).map (fun fd =>
        if fd.name == fn then FieldDoc.mk nfn field.db_field fd.fields else fd)
      (.ok (), { st with reg := reg, doc := st.doc.setFieldsAttr isFrames docs })

/-- The pairwise `_rename_field_schema` loop of `_rename_fields`. -/
def renameSchemaLoop (isFrames : Bool) :
    List (String × String) → GState → Except Err Unit × GState
  | [], st => (.ok (), st)
  | (fn, nfn) :: rest, st =>
      match renameFieldSchemaSt isFrames fn nfn st with
      | (.error e, st) => (.error e, st)
      | (.ok _, st) => renameSchemaLoop isFrames rest st

/-- Translation of `_rename_fields` over paired lists: validate every pair (not
a default field, old name exists, new name free, new name valid, group
redesignation) before any mutation; then rewrite storage, update the registry
schema pairwise, record the app-config path renames, and save the document. -/
def renameFields (env : Env) (isFrames : Bool) (fns nfns : List String)
    (st : GState) : Except Err Unit × GState :=
  let media := st.doc.media_type
  let defaults := getDefaultFields env none isFrames
  let pairs := fns.zip nfns
  match renameValidatePairs env media isFrames defaults st.reg pairs
      st.doc.group_field with
  | .error (e, gf) =>
      (.error e, { st with doc := { st.doc with group_field := gf } })
  | .ok gf =>
      let st := { st with doc := { st.doc with group_field := gf } }
      let st := renameFieldsSimple fns nfns st
      match renameSchemaLoop isFrames pairs st with
      | (.error e, st) => (.error e, st)
      | (.ok _, st) =>
          let ac := st.doc.app_config
          let ac := { ac with renameCalls := ac.renameCalls ++ [(fns, nfns)] }
          let st := { st with doc := { st.doc with app_config := ac } }
          (.ok (), saveDoc st)

/-! ## Batch clone -/

/-- Translation of the validation loop of `_clone_fields`: old name exists, new
name free, the group field may not be cloned, new name valid. -/
def cloneValidatePairs (env : Env) (media : String) (isFrames : Bool)
    (reg : Registry) : List (String × String) → Except Err Unit
  | [] => .ok ()
  | (fn, nfn) :: rest =>
      match dget reg.fields fn with
      | none => .error (.notFound fn)
      | some existing =>
          if dmem reg.fields nfn then .error (.alreadyExists nfn)
          else if isGroupField existing then .error (.cloneGroup fn)
          else if !(env.validateName nfn media isFrames) then
            .error (.invalidName nfn)
          else cloneValidatePairs env media isFrames reg rest

/-- Translation of `_clone_field_schema`: look the source field up and add it
under the new name via `_add_field_schema`. -/
def cloneFieldSchemaSt (isFrames : Bool) (fn nfn : String) (st : GState) :
    Except Err Unit × GState :=
  match dget st.reg.fields fn with
  | none => (.error (.keyError fn), st)
  | some field => addFieldSchema isFrames nfn field st

/-- The pairwise `_clone_field_schema` loop of `_clone_fields`. -/
def cloneSchemaLoop (isFrames : Bool) :
    List (String × String) → GState → Except Err Unit × GState
  | [], st => (.ok (), st)
  | (fn, nfn) :: rest, st =>
      match cloneFieldSchemaSt isFrames fn nfn st with
      | (.error e, st) => (.error e, st)
      | (.ok _, st) => cloneSchemaLoop isFrames rest st

/-- Translation of `_clone_fields` (direct-storage path,
`sample_collection = None`): validate every pair before any mutation; then
rewrite storage, clone the schema entries pairwise, and save the document. -/
def cloneFields (env : Env) (isFrames : Bool) (fns nfns : List String)
    (st : GState) : Except Err Unit × GState :=
  let media := st.doc.media_type
  let pairs := fns.zip nfns
  match cloneValidatePairs env media isFrames st.reg pairs with
  | .error e => (.error e, st)
  | .ok _ =>
      let st := cloneFieldsSimple fns nfns st
      match cloneSchemaLoop isFrames pairs st with
      | (.error e, st) => (.error e, st)
      | (.ok _, st) => (.ok (), saveDoc st)

/-! ## Batch delete -/

/-- Translation of the scan loop of `_delete_fields`: a default field or a
missing field goes through the error-level policy (`fou.handle_error`: raise at
level 0, warn or ignore at levels 1 and 2); the remaining fields are collected
for deletion in order. -/
def scanDeletes (defaults : List String) (reg : Registry) (errorLevel : Nat) :
    List String → Except Err (List String)
  | [] => .ok []
  | fn :: rest =>
      if defaults.contains fn then
        if errorLevel == 0 then .error (.defaultField fn)
        else scanDeletes defaults reg errorLevel rest
      else if !(dmem reg.fields fn) then
        if errorLevel == 0 then .error (.notFound fn)
        else scanDeletes defaults reg errorLevel rest
      else
        (scanDeletes defaults reg errorLevel rest).map (fun l => fn :: l)

/-- Remove the first matching field document (the `break` in
`_delete_field_schema`). -/
def deleteFirstDoc : List FieldDoc → String → List FieldDoc
  | [], _ => []
  | fd :: rest, fn => if fd.name == fn then rest else fd :: deleteFirstDoc rest fn

/-- Translation of `_delete_field_schema` (full): delete the registry entry and
remove the first matching persisted field document. -/
def deleteFieldSchemaSt (isFrames : Bool) (fn : String) (st : GState) :
    Except Err Unit × GState :=
  match deleteFieldReg st.reg fn with
  | .error e => (.error e, st)
  | .ok reg =>
      let docs := deleteFirstDoc (st.doc.fieldsAttr isFrames) fn
      (.ok (), { st with reg := reg, doc := st.doc.setFieldsAttr isFrames docs })

/-- The `_delete_field_schema` loop of `_delete_fields`. -/
def deleteSchemaLoop (isFrames : Bool) :
    List String → GState → Except Err Unit × GState
  | [], st => (.ok (), st)
  | fn :: rest, st =>
      match deleteFieldSchemaSt isFrames fn st with
      | (.error e, st) => (.error e, st)
      | (.ok _, st) => deleteSchemaLoop isFrames rest st

/-- Translation of `_delete_fields`: scan all requested names under the error
level, return silently if nothing is deletable, otherwise unset storage, delete
the schema entries, record the app-config path deletion for the full requested
list, and save the document. -/
def deleteFields (env : Env) (isFrames : Bool) (fns : List String)
    (errorLevel : Nat) (st : GState) : Except Err Unit × GState :=
  let defaults := getDefaultFields env (some st.doc) isFrames
  match scanDeletes defaults st.reg errorLevel fns with
  | .error e => (.error e, st)
  | .ok delFields =>
      if delFields.isEmpty then (.ok (), st)
      else
        let st := deleteFieldsSimple delFields st
        match deleteSchemaLoop isFrames delFields st with
        | (.error e, st) => (.error e, st)
        | (.ok _, st) =>
            let ac := st.doc.app_config
            let ac := { ac with deleteCalls := ac.deleteCalls ++ [fns] }
            let st := { st with doc := { st.doc with app_config := ac } }
            (.ok (), saveDoc st)

/-! ## Update extraction for filtered list fields -/

/-- A value inside a live in-memory document: an element with an optional
object identifier and named members, a list, or a primitive. -/
inductive DVal : Type where
  | obj (oid : Option Nat) (fields : List (String × DVal)) : DVal
  | arr (elems : List DVal) : DVal
  | prim : DVal

/-- Member access `el[field_name]` on an element. -/
def DVal.getField : DVal → String → Option DVal
  | .obj _ fs, k => dget fs k
  | _, _ => none

/-- Positional access `el[idx]` on a list. -/
def DVal.index : DVal → Nat → Option DVal
  | .arr xs, i => xs.get? i
  | _, _ => none

/-- The element's stable identifier (`el._id`). -/
def DVal.elId : DVal → Option Nat
  | .obj i _ => i
  | _ => none

/-- Parse a decimal natural number (Python `int(...)`, restricted to the
nonnegative indices that update keys carry; a negative or malformed chunk is an
error either way). -/
def parseNat (s : String) : Option Nat :=
  if s.data.isEmpty then none
  else if s.data.all (fun c => c.isDigit) then
    some (s.data.foldl (fun n c => n * 10 + (c.toNat - 48)) 0)
  else none

/-- Walk the live document along the dotted filtered-field path. -/
def walkFiltered : DVal → List String → Except Err DVal
  | self, [] => .ok self
  | self, k :: rest =>
      match self.getField k with
      | none => .error (.keyError k)
      | some v => walkFiltered v rest

/-- Translation of `_parse_id_and_array_filter`: walk the live document along
the filtered field, split the remainder of the update key into a positional
index and trailing sub-fields, resolve the addressed element's identifier, and
build the element-scoped selector. -/
def parseIdAndArrayFilter (self : DVal)
    (list_element_field filtered_field : String) : Except Err (Nat × String) :=
  match walkFiltered self (splitDots filtered_field) with
  | .error e => .error e
  | .ok el =>
      match splitDots (lstripDots (strDrop list_element_field
          filtered_field.length)) with
      | [] => .error (.badListIndex "")
      | idxChunk :: restFields =>
          match parseNat idxChunk with
          | none => .error (.badListIndex idxChunk)
          | some idx =>
              match el.index idx with
              | none => .error (.badListIndex idxChunk)
              | some elem =>
                  match elem.elId with
                  | none => .error (.missingValue "_id")
                  | some i =>
                      .ok (i, joinDots (filtered_field :: "$[element]" :: restFields))

/-- Whether an update key illegally targets the root or a positional index of a
filtered list field: it starts with the raw string of some filtered field and
the remainder, after stripping leading dots, contains no further dot. -/
def illegalKey (filtered : List String) (k : String) : Bool :=
  filtered.any (fun ff =>
    strStarts k ff && countDots (lstripDots (strDrop k ff.length)) == 0)

/-- The first illegal key of the update document, in operator order then key
order (the triple loop of the illegal-modification check). -/
def firstIllegalKey (filtered : List String) :
    List (String × Dict Nat) → Option String
  | [] => none
  | (_, d) :: rest =>
      match (dkeys d).find? (fun k => illegalKey filtered k) with
      | some k => some k
      | none => firstIllegalKey filtered rest

/-- The `$set` rewriting loop of `_extract_extra_updates`: each key under some
filtered field is resolved to an element-scoped update and scheduled for
removal from the primary document. -/
def setLoop (self : DVal) (filtered : List String) :
    Dict Nat → Except Err (List String × List ((String × Nat) × Nat))
  | [] => .ok ([], [])
  | (k, v) :: rest =>
      match filtered.find? (fun ff => strStarts k ff) with
      | some ff =>
          match parseIdAndArrayFilter self k ff with
          | .error e => .error e
          | .ok (eid, elf) =>
              match setLoop self filtered rest with
              | .error e => .error e
              | .ok (dks, exs) => .ok (k :: dks, ((elf, v), eid) :: exs)
      | none => setLoop self filtered rest

/-- Translation of `_extract_extra_updates`: reject illegal modifications of a
filtered list's root or positional index, then rewrite each `$set` entry that
falls under a filtered field into an element-scoped update keyed by the
element's identifier, removing it from the primary update document (and the
`$set` operator itself once emptied). -/
def extractExtraUpdates (self : DVal) (update_doc : List (String × Dict Nat))
    (filtered : List String) :
    Except Err (List (String × Dict Nat) × List ((String × Nat) × Nat)) :=
  match (if filtered.isEmpty then none else firstIllegalKey filtered update_doc) with
  | some k => .error (.filteredRootModify k)
  | none =>
      match (if filtered.isEmpty then none else dget update_doc "$set") with
      | none => .ok (update_doc, [])
      | some d =>
          match setLoop self filtered d with
          | .error e => .error e
          | .ok (dks, extras) =>
              let d2 := d.filter (fun p => !(dks.contains p.1))
              let ud2 :=
                if d2.isEmpty then ddel update_doc "$set"
                else dsetP update_doc "$set" d2
              .ok (ud2, extras)

/-! ## Registry-operation sequences (for the registry invariant) -/

/-- One registry operation: a `_declare_field` insert/replace, a
`_rename_field_schema` rename, or a `_delete_field_schema` deletion. -/
inductive RegOp : Type where
  | declareOp (f : Field)
  | renameOp (old new : String)
  | deleteOp (name : String)

/-- Apply one registry operation. -/
def applyRegOp (r : Registry) : RegOp → Except Err Registry
  | .declareOp f => .ok (declareField r f)
  | .renameOp o n => (renameFieldReg r o n).map (fun p => p.1)
  | .deleteOp n => deleteFieldReg r n

/-- Apply a sequence of registry operations, stopping at the first error. -/
def applyRegOps (r : Registry) : List RegOp → Except Err Registry
  | [] => .ok r
  | op :: ops =>
      match applyRegOp r op with
      | .error e => .error e
      | .ok r2 => applyRegOps r2 ops

/-- A rename is safe when its target name is the source name or is free — the
precondition every caller of `_rename_field_schema` establishes by validation. -/
def goodOp (r : Registry) : RegOp → Bool
  | .renameOp o n => o == n || !(dmem r.fields n)
  | _ => true

/-- A sequence is good when every operation is safe in the state it runs in. -/
def goodOps (r : Registry) : List RegOp → Bool
  | [] => true
  | op :: ops =>
      goodOp r op &&
      (match applyRegOp r op with
       | .error _ => true
       | .ok r2 => goodOps r2 ops)

/-- The registry invariant: the key set of the mapping equals the membership of
the ordered sequence, and both are duplicate-free. -/
def RegInv (r : Registry) : Prop :=
  (∀ n, dmem r.fields n = true ↔ n ∈ r.fields_ordered) ∧
  r.fields_ordered.Nodup ∧ (dkeys r.fields).Nodup

/-! ## Basic dictionary lemmas -/

theorem dget_append {α : Type} (d1 d2 : Dict α) (k : String) :
    dget (d1 ++ d2) k = if dmem d1 k then dget d1 k else dget d2 k := by
  induction d1 with
  | nil => simp [dmem, dget]
  | cons p rest ih =>
      by_cases h : p.1 == k
      · simp [dget, h, dmem]
      · simp only [Bool.not_eq_true] at h
        simp [dget, h, dmem] at ih ⊢
        exact ih

theorem dget_ddel_self {α : Type} (d : Dict α) (k : String) :
    dget (ddel d k) k = none := by
  induction d with
  | nil => rfl
  | cons p rest ih =>
      by_cases h : p.1 == k
      · simpa [ddel, h] using ih
      · simp only [Bool.not_eq_true] at h
        simpa [ddel, h, dget] using ih

theorem dget_ddel_ne {α : Type} (d : Dict α) (k m : String) (h : m ≠ k) :
    dget (ddel d k) m = dget d m := by
  induction d with
  | nil => rfl
  | cons p rest ih =>
      by_cases hp : p.1 == k
      · have hpk : p.1 = k := by simpa using hp
        have hpm : ¬(p.1 == m) = true := by
          simp [hpk]; exact fun hc => h hc.symm
        simp only [Bool.not_eq_true] at hpm
        simp [ddel, hp, dget, hpm, ih]
      · simp only [Bool.not_eq_true] at hp
        simp [ddel, hp, dget, ih]

theorem dget_drepl_self {α : Type} (d : Dict α) (k : String) (v : α)
    (hm : dmem d k = true) : dget (drepl d k v) k = some v := by
  induction d with
  | nil => simp [dmem, dget] at hm
  | cons p rest ih =>
      by_cases h : p.1 == k
      · simp [drepl, h, dget]
      · simp only [Bool.not_eq_true] at h
        have hm2 : dmem rest k = true := by simpa [dmem, dget, h] using hm
        simp [drepl, h, dget, ih hm2]

theorem dget_drepl_ne {α : Type} (d : Dict α) (k m : String) (v : α)
    (h : m ≠ k) : dget (drepl d k v) m = dget d m := by
  induction d with
  | nil => rfl
  | cons p rest ih =>
      by_cases hp : p.1 == k
      · have hpk : p.1 = k := by simpa using hp
        have h1 : ¬(k == m) = true := by
          simp; exact fun hc => h hc.symm
        have h2 : ¬(p.1 == m) = true := by
          simp [hpk]; exact fun hc => h hc.symm
        simp only [Bool.not_eq_true] at h1 h2
        simp [drepl, hp, dget, h1, h2, ih]
      · simp only [Bool.not_eq_true] at hp
        simp [drepl, hp, dget, ih]

theorem dget_dsetP_self {α : Type} (d : Dict α) (k : String) (v : α) :
    dget (dsetP d k v) k = some v := by
  unfold dsetP
  by_cases hm : dmem d k
  · simp only [hm, if_true]
    exact dget_drepl_self d k v hm
  · simp only [hm, Bool.false_eq_true, if_false]
    have hg : dget d k = none := by
      cases hg : dget d k with
      | none => rfl
      | some v0 => exact absurd (by simp [dmem, hg]) hm
    rw [dget_append]
    simp [dmem, hg, dget]

theorem dget_dsetP_ne {α : Type} (d : Dict α) (k m : String) (v : α)
    (h : m ≠ k) : dget (dsetP d k v) m = dget d m := by
  unfold dsetP
  by_cases hm : dmem d k
  · simp only [hm, if_true]
    exact dget_drepl_ne d k m v h
  · simp only [hm, Bool.false_eq_true, if_false]
    rw [dget_append]
    have h1 : ¬(k == m) = true := by
      simp; exact fun hc => h hc.symm
    simp only [Bool.not_eq_true] at h1
    by_cases hdm : dmem d m
    · simp [hdm]
    · simp only [hdm, Bool.false_eq_true, if_false, dget, h1]
      cases hg : dget d m with
      | none => rfl
      | some v0 => exact absurd (by simp [dmem, hg]) hdm

theorem dmem_iff_keys {α : Type} (d : Dict α) (k : String) :
    dmem d k = true ↔ k ∈ dkeys d := by
  induction d with
  | nil => simp [dmem, dget, dkeys]
  | cons p rest ih =>
      by_cases h : p.1 == k
      · have : p.1 = k := by simpa using h
        simp [dmem, dget, h, dkeys, this]
      · simp only [Bool.not_eq_true] at h
        have hne : ¬(k = p.1) := by
          intro hc; subst hc; simp at h
        simpa [dmem, dget, h, dkeys, hne] using ih

theorem dkeys_ddel {α : Type} (d : Dict α) (k : String) :
    dkeys (ddel d k) = (dkeys d).filter (fun n => !(n == k)) := by
  induction d with
  | nil => rfl
  | cons p rest ih =>
      by_cases h : p.1 == k
      · simp only [Bool.not_eq_true] at h
        simp [ddel, h, dkeys, List.filter, ih]
      · simp only [Bool.not_eq_true] at h
        simp [ddel, h, dkeys, List.filter, ih]

theorem dkeys_append {α : Type} (d1 d2 : Dict α) :
    dkeys (d1 ++ d2) = dkeys d1 ++ dkeys d2 := by
  induction d1 with
  | nil => rfl
  | cons p rest ih => simp [dkeys, ih]

theorem dkeys_drepl {α : Type} (d : Dict α) (k : String) (v : α) :
    dkeys (drepl d k v) = dkeys d := by
  induction d with
  | nil => rfl
  | cons p rest ih =>
      by_cases h : p.1 == k
      · have : p.1 = k := by simpa using h
        simp [drepl, h, dkeys, ih, this]
      · simp only [Bool.not_eq_true] at h
        simp [drepl, h, dkeys, ih]

/-! ## Well-formed descriptors and idempotence of the embedded merge -/

/-- Duplicate-freedom of the names in a subfield list. -/
def nodupNamesB : List Field → Bool
  | [] => true
  | f :: fs => !(fs.any (fun g => g.name == f.name)) && nodupNamesB fs

mutual

/-- Well-formedness of a descriptor: the subfield names of every embedded
schema it contains are duplicate-free. -/
def wfNamesF : Field → Bool
  | .mk _ _ (.embeddedK _ sub) _ _ => nodupNamesB sub && wfNamesL sub
  | _ => true

/-- Well-formedness of every descriptor in a list. -/
def wfNamesL : List Field → Bool
  | [] => true
  | f :: fs => wfNamesF f && wfNamesL fs

end

mutual

/-- A depth measure on descriptors, for strong induction over embedded schemas. -/
def fdepth : Field → Nat
  | .mk _ _ (.embeddedK _ sub) _ _ => 1 + ldepth sub
  | _ => 1

/-- The total depth of a descriptor list. -/
def ldepth : List Field → Nat
  | [] => 0
  | f :: fs => fdepth f + ldepth fs

end

theorem fdepth_pos (F : Field) : 1 ≤ fdepth F := by
  obtain ⟨n, d, k, r, u⟩ := F
  cases k <;> simp [fdepth]

theorem fdepth_le_ldepth (sub : List Field) (sf : Field) (h : sf ∈ sub) :
    fdepth sf ≤ ldepth sub := by
  induction sub with
  | nil => cases h
  | cons f fs ih =>
      cases h with
      | head => simp [ldepth]
      | tail _ hm =>
          have := ih hm
          simp [ldepth]
          omega

theorem wf_of_mem (sub : List Field) (sf : Field) (h : sf ∈ sub)
    (hwf : wfNamesL sub = true) : wfNamesF sf = true := by
  induction sub with
  | nil => cases h
  | cons f fs ih =>
      simp [wfNamesL, Bool.and_eq_true] at hwf
      cases h with
      | head => exact hwf.1
      | tail _ hm => exact ih hm hwf.2

theorem find_name_self (sub : List Field) (sf : Field) (hmem : sf ∈ sub)
    (hnd : nodupNamesB sub = true) :
    sub.find? (fun g => g.name == sf.name) = some sf := by
  induction sub with
  | nil => cases hmem
  | cons f fs ih =>
      simp only [nodupNamesB, Bool.and_eq_true, Bool.not_eq_true] at hnd
      obtain ⟨hany, hnd2⟩ := hnd
      cases hmem with
      | head => simp [List.find?]
      | tail _ hm =>
          have hne : (f.name == sf.name) = false := by
            cases hc : f.name == sf.name with
            | false => rfl
            | true =>
                have : fs.any (fun g => g.name == f.name) = true := by
                  refine List.any_eq_true.mpr ⟨sf, hm, ?_⟩
                  have := eq_of_beq hc
                  simp [this]
                rw [this] at hany
                cases hany
          simp [List.find?, hne, ih hm hnd2]

theorem validateFieldsMatch_self (p : String) (F : Field) :
    validateFieldsMatch p F F = .ok () := by
  simp [validateFieldsMatch]

theorem embMerge_self_bound : ∀ (n : Nat) (F : Field) (path : String)
    (v r : Bool), fdepth F ≤ n → wfNamesF F = true →
    embMergeFields path F F v r = .ok [] := by
  intro n
  induction n with
  | zero =>
      intro F path v r hle _
      have := fdepth_pos F
      omega
  | succ n ih =>
      intro F path v r hle hwf
      obtain ⟨nm, db, k, rq, nl⟩ := F
      cases k with
      | embeddedK t sub =>
          simp only [wfNamesF, Bool.and_eq_true] at hwf
          obtain ⟨hnd, hwl⟩ := hwf
          have hld : ldepth sub ≤ n := by
            simp [fdepth] at hle
            omega
          have inner : ∀ subIn, (∀ sf, sf ∈ subIn → sf ∈ sub) →
              embMergeList path sub subIn v r = .ok [] := by
            intro subIn
            induction subIn with
            | nil => intro _; rfl
            | cons sf rest ihl =>
                intro hsub
                have hmem : sf ∈ sub := hsub sf (List.mem_cons_self _ _)
                have hfind := find_name_self sub sf hmem hnd
                have hrest : ∀ g, g ∈ rest → g ∈ sub :=
                  fun g hg => hsub g (List.mem_cons_of_mem _ hg)
                by_cases hre : (r && sf.isEmbedded) = true
                · have hrec : embMergeFields (path ++ "." ++ sf.name) sf sf v r
                      = .ok [] := by
                    apply ih
                    · exact Nat.le_trans (fdepth_le_ldepth sub sf hmem) hld
                    · exact wf_of_mem sub sf hmem hwl
                  simp [embMergeList, hfind, hre, hrec, ihl hrest]
                · simp [embMergeList, hfind, hre, validateFieldsMatch_self,
                    ihl hrest]
          have hlist := inner sub (fun _ h => h)
          simp [embMergeFields, hlist]
      | objectIdK =>
          cases v <;> simp [embMergeFields, validateFieldsMatch_self]
      | groupK =>
          cases v <;> simp [embMergeFields, validateFieldsMatch_self]
      | scalarK tg =>
          cases v <;> simp [embMergeFields, validateFieldsMatch_self]
      | listK e =>
          cases v <;> simp [embMergeFields, validateFieldsMatch_self]

/-! ## Claim C5 -/

/-- C5: with `expand_schema = False`, any genuinely-new field makes
`merge_field_schema` fail with an error listing every new path, with no field
added to the registry or schema document and no save — the state is returned
exactly as it was. -/
theorem merge_no_expand_aborts (env : Env) (isFrames : Bool)
    (schema : List (String × Field)) (recursive validate : Bool) (st : GState)
    (ns : Dict Field)
    (h1 : collectNewFields env isFrames st.reg st.doc validate recursive
      schema [] = .ok ns)
    (h2 : ns ≠ []) :
    mergeFieldSchema env isFrames schema false recursive validate st
      = (.error (.fieldsDoNotExist (dkeys ns)), st) := by
  unfold mergeFieldSchema
  rw [h1]
  have hne : ns.isEmpty = false := by
    cases ns with
    | nil => exact absurd rfl h2
    | cons a l => rfl
  simp [hne]

/-- Shared concrete environment for witnesses: every name validates and `id` is
the only base default field. -/
def envW : Env := ⟨fun _ _ _ => true, ["id"]⟩

/-- Shared concrete dataset document for witnesses. -/
def docW : DatasetDoc := ⟨"image", none, [], [], ⟨[], []⟩⟩

/-- Shared concrete empty-registry state for witnesses. -/
def stW : GState := ⟨⟨[], []⟩, docW, [], []⟩

/-- A concrete scalar descriptor for witnesses. -/
def fldW : Field := .mk "b" none (.scalarK "IntField") false false

/-- Witness for C5 at a concrete state: adding a new field `b` with
`expand_schema = False` fails listing `b` and leaves the state untouched. -/
theorem merge_no_expand_aborts_witness :
    mergeFieldSchema envW false [("b", fldW)] false true true stW
      = (.error (.fieldsDoNotExist ["b"]), stW) := by
  have h := merge_no_expand_aborts envW false [("b", fldW)] true true stW
    [("b", fldW)] (by rfl) (by simp)
  exact h

/-! ## Claim C3 -/

/-- The claim-side path resolver: the descriptor found at a dotted path, walking
non-terminal segments exactly as `_merge_field` does and looking the leaf up in
the terminal container. -/
def resolveTop (reg : Registry) (path : String) : Option Field :=
  let chunks := splitDots path
  match walkChunks path reg.fields none chunks.dropLast with
  | .error _ => none
  | .ok sch => dget sch (chunks.getLastD "")

/-- The leaf segment of a dotted path. -/
def leafOf (path : String) : String := (splitDots path).getLastD ""

/-- C3 (amended): calling `merge_field_schema` with an identical descriptor for
a path already present in the schema returns `False` and leaves the entire
state (registry, document, storage, saved snapshots) unchanged — provided the
leaf is not an underscore-prefixed name carrying an ObjectId descriptor, which
the code instead treats as declaring the stripped name. -/
theorem merge_idempotent (env : Env) (isFrames : Bool) (st : GState)
    (p : String) (F : Field)
    (h1 : resolveTop st.reg p = some F)
    (h2 : wfNamesF F = true)
    (h3 : ¬(isObjectIdKind F.kind = true ∧ strStarts (leafOf p) "_" = true)) :
    mergeFieldSchema env isFrames [(p, F)] true true true st = (.ok false, st) := by
  have hm : mergeField env isFrames st.reg st.doc p F true true = .ok [] := by
    unfold mergeField
    unfold resolveTop at h1
    dsimp only at h1 ⊢
    cases hw : walkChunks p st.reg.fields none (splitDots p).dropLast with
    | error e => rw [hw] at h1; simp at h1
    | ok sch =>
        rw [hw] at h1
        simp only at h1
        have hstrip : (isObjectIdKind F.kind
            && strStarts ((splitDots p).getLastD "") "_") = false := by
          cases hA : isObjectIdKind F.kind with
          | false => rfl
          | true =>
              cases hB : strStarts ((splitDots p).getLastD "") "_" with
              | false => rfl
              | true => exact absurd ⟨hA, hB⟩ h3
        simp only [hstrip, Bool.false_eq_true, if_false]
        cases hid : (((splitDots p).getLastD "" : String) == "id") with
        | true => simp [hid]
        | false =>
            simp only [hid, Bool.false_eq_true, if_false]
            rw [h1]
            by_cases hemb : F.isEmbedded = true
            · simp [hemb,
                embMerge_self_bound (fdepth F) F p true true (Nat.le_refl _) h2]
            · simp [hemb, validateFieldsMatch_self]
  unfold mergeFieldSchema collectNewFields
  rw [hm]
  simp [collectNewFields]

/-- The underscore-prefixed ObjectId descriptor of the C3 counterexample. -/
def fC3 : Field := .mk "_c" (some "_c") .objectIdK false false

/-- The state of the C3 counterexample: field `_c` is present in the registry
and in the persisted schema. -/
def stC3 : GState :=
  ⟨⟨[("_c", fC3)], ["_c"]⟩,
   ⟨"image", none, [FieldDoc.ofField fC3], [], ⟨[], []⟩⟩, [], []⟩

/-- C3 counterexample: path `_c` is present with descriptor `fC3`, yet merging
the identical descriptor again returns `True` (fields added, document saved),
not `False` — the ObjectId-underscore special case reroutes the lookup to the
stripped name `c`, which does not exist. -/
theorem merge_idempotent_counterexample :
    resolveTop stC3.reg "_c" = some fC3 ∧
    (mergeFieldSchema envW false [("_c", fC3)] true true true stC3).1
      = .ok true ∧
    (mergeFieldSchema envW false [("_c", fC3)] true true true stC3).2.savedDocs
      ≠ stC3.savedDocs := by
  refine ⟨rfl, rfl, ?_⟩
  intro hc
  have : (1 : Nat) = 0 := congrArg List.length hc
  simp at this

/-! ## Claim C7 -/

theorem group_kind_eq (F : Field) (h : isGroupField F = true) :
    F.kind = .groupK := by
  obtain ⟨n, d, k, r, u⟩ := F
  cases k <;> simp_all [isGroupField, Field.kind]

theorem group_kind_facts (F : Field) (h : isGroupField F = true) :
    isObjectIdKind F.kind = false ∧ F.isEmbedded = false := by
  rw [Field.isEmbedded, group_kind_eq F h]
  simp [isObjectIdKind]

/-- C7: merging a group-typed descriptor under a fresh, valid, top-level name:
(1) at frame level it fails with the frame-group error; (2) at sample level
with a different designated group field it fails with the second-group
conflict; (3) with no designated group field or the same designation it
succeeds without error, adding the field; and (4) when the name is the
already-registered group field itself the merge succeeds without error,
reporting nothing new. -/
theorem group_field_merge :
    (∀ (env : Env) (st : GState) (p : String) (F : Field),
      splitDots p = [p] → isGroupField F = true →
      dget st.reg.fields p = none →
      env.validateName p st.doc.media_type true = true → p ≠ "id" →
      mergeFieldSchema env true [(p, F)] true true true st
        = (.error (.frameGroup p), st)) ∧
    (∀ (env : Env) (st : GState) (p g : String) (F : Field),
      splitDots p = [p] → isGroupField F = true →
      dget st.reg.fields p = none →
      env.validateName p st.doc.media_type false = true → p ≠ "id" →
      st.doc.group_field = some g → g ≠ p →
      mergeFieldSchema env false [(p, F)] true true true st
        = (.error (.secondGroup p), st)) ∧
    (∀ (env : Env) (st : GState) (p : String) (F : Field),
      splitDots p = [p] → isGroupField F = true →
      dget st.reg.fields p = none →
      env.validateName p st.doc.media_type false = true → p ≠ "id" →
      (st.doc.group_field = none ∨ st.doc.group_field = some p) →
      (mergeFieldSchema env false [(p, F)] true true true st).1 = .ok true) ∧
    (∀ (env : Env) (st : GState) (p : String) (F F0 : Field),
      splitDots p = [p] → isGroupField F = true → isGroupField F0 = true →
      dget st.reg.fields p = some F0 →
      mergeFieldSchema env false [(p, F)] true true true st = (.ok false, st)) := by
  have hmergeNew : ∀ (env : Env) (isFrames : Bool) (st : GState) (p : String)
      (F : Field), splitDots p = [p] → isGroupField F = true →
      dget st.reg.fields p = none →
      env.validateName p st.doc.media_type isFrames = true → p ≠ "id" →
      mergeField env isFrames st.reg st.doc p F true true
        = (if isFrames then .error (.frameGroup p)
           else match st.doc.group_field with
             | some g => if g == p then .ok [(p, F)]
                 else .error (.secondGroup p)
             | none => .ok [(p, F)]) := by
    intro env isFrames st p F hch hg hnone hval hid
    obtain ⟨hoid, _⟩ := group_kind_facts F hg
    unfold mergeField
    dsimp only
    rw [hch]
    rw [show ([p] : List String).getLastD "" = p from rfl]
    rw [show ([p] : List String).dropLast = [] from rfl]
    rw [show walkChunks p st.reg.fields none [] = .ok st.reg.fields from rfl]
    have hpid : (p == "id") = false := by
      cases hc : p == "id" with
      | false => rfl
      | true => exact absurd (by simpa using hc) hid
    simp only [hoid, Bool.false_and, Bool.false_eq_true, if_false, hpid,
      hnone, hval, Bool.not_true, hg, if_true]
  refine ⟨?_, ?_, ?_, ?_⟩
  · intro env st p F hch hg hnone hval hid
    have hm := hmergeNew env true st p F hch hg hnone hval hid
    simp only [if_true] at hm
    unfold mergeFieldSchema collectNewFields
    rw [hm]
  · intro env st p g F hch hg hnone hval hid hgf hne
    have hm := hmergeNew env false st p F hch hg hnone hval hid
    have hgp : (g == p) = false := by
      cases hc : g == p with
      | false => rfl
      | true => exact absurd (by simpa using hc) hne
    rw [hgf] at hm
    simp only [Bool.false_eq_true, if_false, hgp] at hm
    unfold mergeFieldSchema collectNewFields
    rw [hm]
  · intro env st p F hch hg hnone hval hid hgf
    have hm := hmergeNew env false st p F hch hg hnone hval hid
    have hm2 : mergeField env false st.reg st.doc p F true true
        = .ok [(p, F)] := by
      cases hgf with
      | inl h0 => rw [h0] at hm; simpa using hm
      | inr h0 => rw [h0] at hm; simpa using hm
    have hadd : (addFieldSchema false p F st).1 = .ok () := by
      unfold addFieldSchema
      dsimp only
      rw [hch]
      rfl
    rcases haddv : addFieldSchema false p F st with ⟨r1, st2⟩
    rw [haddv] at hadd
    dsimp only at hadd
    subst hadd
    unfold mergeFieldSchema collectNewFields
    rw [hm2]
    simp only [collectNewFields, List.foldl]
    rw [show dsetP ([] : Dict Field) p F = [(p, F)] from rfl]
    simp only [List.isEmpty, Bool.not_false, Bool.true_and, addSchemaLoop]
    rw [haddv]
    simp [addSchemaLoop]
  · intro env st p F F0 hch hg hg0 hsome
    have hk : F.kind.tag = "GroupField" := by rw [group_kind_eq F hg]; rfl
    have hk0 : F0.kind.tag = "GroupField" := by rw [group_kind_eq F0 hg0]; rfl
    obtain ⟨hoid, _⟩ := group_kind_facts F hg
    obtain ⟨_, hemb0⟩ := group_kind_facts F0 hg0
    have hm : mergeField env false st.reg st.doc p F true true = .ok [] := by
      unfold mergeField
      dsimp only
      rw [hch]
      rw [show ([p] : List String).getLastD "" = p from rfl]
      rw [show ([p] : List String).dropLast = [] from rfl]
      rw [show walkChunks p st.reg.fields none [] = .ok st.reg.fields from rfl]
      simp only [hoid, Bool.false_and, Bool.false_eq_true, if_false, hsome]
      by_cases hpid : (p == "id") = true
      · simp [hpid]
      · simp only [Bool.not_eq_true] at hpid
        simp [hpid, hemb0, validateFieldsMatch, hk, hk0]
    unfold mergeFieldSchema collectNewFields
    rw [hm]
    simp [collectNewFields]

/-- The concrete group descriptor for the C7 witness. -/
def grpW : Field := .mk "grp" none .groupK false false

/-- A grouped-media dataset document with no designated group field. -/
def docGn : DatasetDoc := ⟨"group", none, [], [], ⟨[], []⟩⟩

/-- A grouped-media dataset document designating `other` as the group field. -/
def docGo : DatasetDoc := ⟨"group", some "other", [], [], ⟨[], []⟩⟩

/-- A grouped-media dataset document designating `grp`, with `grp` registered. -/
def docGs : DatasetDoc := ⟨"group", some "grp", [], [], ⟨[], []⟩⟩

/-- Witness for C7: the four prongs at concrete states. -/
theorem group_field_merge_witness :
    mergeFieldSchema envW true [("grp", grpW)] true true true
      ⟨⟨[], []⟩, docGn, [], []⟩
      = (.error (.frameGroup "grp"), ⟨⟨[], []⟩, docGn, [], []⟩) ∧
    mergeFieldSchema envW false [("grp", grpW)] true true true
      ⟨⟨[], []⟩, docGo, [], []⟩
      = (.error (.secondGroup "grp"), ⟨⟨[], []⟩, docGo, [], []⟩) ∧
    (mergeFieldSchema envW false [("grp", grpW)] true true true
      ⟨⟨[], []⟩, docGn, [], []⟩).1 = .ok true ∧
    mergeFieldSchema envW false [("grp", grpW)] true true true
      ⟨⟨[("grp", grpW)], ["grp"]⟩, docGs, [], []⟩
      = (.ok false, ⟨⟨[("grp", grpW)], ["grp"]⟩, docGs, [], []⟩) := by
  refine ⟨?_, ?_, ?_, ?_⟩
  · exact group_field_merge.1 envW _ "grp" grpW rfl rfl rfl rfl (by decide)
  · exact group_field_merge.2.1 envW _ "grp" "other" grpW rfl rfl rfl rfl
      (by decide) rfl (by decide)
  · exact group_field_merge.2.2.1 envW _ "grp" grpW rfl rfl rfl rfl
      (by decide) (Or.inl rfl)
  · exact group_field_merge.2.2.2 envW _ "grp" grpW grpW rfl rfl rfl rfl

/-! ## Claim C2 -/

theorem ne_underscore_self (s : String) : (s == "_" ++ s) = false := by
  cases hc : s == "_" ++ s with
  | false => rfl
  | true =>
      have he : s = "_" ++ s := by simpa using hc
      have hlen : s.length = ("_" ++ s).length := by rw [← he]
      rw [String.length_append] at hlen
      have h1 : ("_" : String).length = 1 := rfl
      rw [h1] at hlen
      omega

theorem beq_underscore_self (s t : String) : ("_" ++ s == "_" ++ t) = (s == t) := by
  cases hc : s == t with
  | true =>
      have : s = t := by simpa using hc
      subst this
      simp
  | false =>
      cases hd : ("_" ++ s) == ("_" ++ t) with
      | false => rfl
      | true =>
          have he : "_" ++ s = "_" ++ t := by simpa using hd
          have h2 := congrArg String.data he
          rw [String.data_append, String.data_append] at h2
          have h3 : s.data = t.data := by simpa using h2
          obtain ⟨sd⟩ := s
          obtain ⟨td⟩ := t
          simp only at h3
          subst h3
          simp at hc

theorem renameFieldReg_eq (reg : Registry) (A B : String) (f : Field)
    (h : dget reg.fields A = some f) :
    renameFieldReg reg A B = .ok
      (⟨dsetP (ddel reg.fields A) B ((f.withName B).withDb (getDbField f B)),
        reg.fields_ordered.map (fun fn => if fn == A then B else fn)⟩,
       (f.withName B).withDb (getDbField f B)) := by
  unfold renameFieldReg
  rw [h]

/-- C2 (amended): renaming a top-level field A→B and then B→A through the
registry component of `_rename_field_schema` restores the descriptor exactly —
name and storage name bit-for-bit — provided the original storage name follows
one of the conventions fields are created under: `none`, the logical name
itself, or the underscore-prefixed logical name.  The intermediate descriptor
keeps the same convention (an underscore-prefixed storage name becomes the
underscore-prefixed new name, and an absent storage name stays absent). -/
theorem rename_roundtrip_restores (reg : Registry) (A B : String) (f : Field)
    (h1 : dget reg.fields A = some f) (h2 : f.name = A)
    (h3 : f.db_field = none ∨ f.db_field = some A ∨
      f.db_field = some ("_" ++ A)) :
    ∃ reg2 g, renameFieldReg reg A B = .ok (reg2, g) ∧
      g.name = B ∧
      (f.db_field = none → g.db_field = none) ∧
      (f.db_field = some ("_" ++ A) → g.db_field = some ("_" ++ B)) ∧
      ∃ reg3, renameFieldReg reg2 B A = .ok (reg3, f) ∧
        dget reg3.fields A = some f := by
  obtain ⟨nm, db, k, rq, nl⟩ := f
  have h2n : nm = A := h2
  subst h2n
  rcases h3 with hdb | hdb | hdb
  all_goals simp only [Field.db_field] at hdb
  all_goals subst hdb
  · exact ⟨_, _, renameFieldReg_eq reg nm B _ h1, rfl, fun _ => rfl,
      fun hc => Option.noConfusion hc, _,
      renameFieldReg_eq _ B nm _ (dget_dsetP_self _ _ _),
      dget_dsetP_self _ _ _⟩
  · have hgb : getDbField (Field.mk nm (some nm) k rq nl) B = some B := by
      simp [getDbField, Field.db_field, Field.name, ne_underscore_self]
    have e1 : renameFieldReg reg nm B = .ok
        (⟨dsetP (ddel reg.fields nm) B (Field.mk B (some B) k rq nl),
          reg.fields_ordered.map (fun fn => if fn == nm then B else fn)⟩,
         Field.mk B (some B) k rq nl) := by
      rw [renameFieldReg_eq reg nm B _ h1, hgb]
      rfl
    have hga : getDbField (Field.mk B (some B) k rq nl) nm = some nm := by
      simp [getDbField, Field.db_field, Field.name, ne_underscore_self]
    have e2 : renameFieldReg
        ⟨dsetP (ddel reg.fields nm) B (Field.mk B (some B) k rq nl),
         reg.fields_ordered.map (fun fn => if fn == nm then B else fn)⟩ B nm
        = .ok
        (⟨dsetP (ddel (dsetP (ddel reg.fields nm) B
            (Field.mk B (some B) k rq nl)) B) nm (Field.mk nm (some nm) k rq nl),
          (reg.fields_ordered.map (fun fn => if fn == nm then B else fn)).map
            (fun fn => if fn == B then nm else fn)⟩,
         Field.mk nm (some nm) k rq nl) := by
      rw [renameFieldReg_eq _ B nm (Field.mk B (some B) k rq nl)
        (dget_dsetP_self _ _ _), hga]
      rfl
    have hund : (some nm : Option String) = some ("_" ++ nm) →
        (Field.mk B (some B) k rq nl).db_field = some ("_" ++ B) := by
      intro hc
      simp only [Option.some.injEq] at hc
      have hlen := congrArg String.length hc
      rw [String.length_append] at hlen
      have h4 : ("_" : String).length = 1 := rfl
      rw [h4] at hlen
      omega
    exact ⟨_, _, e1, rfl, fun hc => Option.noConfusion hc, hund, _, e2,
      dget_dsetP_self _ _ _⟩
  · have hgb : getDbField (Field.mk nm (some ("_" ++ nm)) k rq nl) B
        = some ("_" ++ B) := by
      simp [getDbField, Field.db_field, Field.name]
    have e1 : renameFieldReg reg nm B = .ok
        (⟨dsetP (ddel reg.fields nm) B (Field.mk B (some ("_" ++ B)) k rq nl),
          reg.fields_ordered.map (fun fn => if fn == nm then B else fn)⟩,
         Field.mk B (some ("_" ++ B)) k rq nl) := by
      rw [renameFieldReg_eq reg nm B _ h1, hgb]
      rfl
    have hga : getDbField (Field.mk B (some ("_" ++ B)) k rq nl) nm
        = some ("_" ++ nm) := by
      simp [getDbField, Field.db_field, Field.name]
    have e2 : renameFieldReg
        ⟨dsetP (ddel reg.fields nm) B (Field.mk B (some ("_" ++ B)) k rq nl),
         reg.fields_ordered.map (fun fn => if fn == nm then B else fn)⟩ B nm
        = .ok
        (⟨dsetP (ddel (dsetP (ddel reg.fields nm) B
            (Field.mk B (some ("_" ++ B)) k rq nl)) B) nm
            (Field.mk nm (some ("_" ++ nm)) k rq nl),
          (reg.fields_ordered.map (fun fn => if fn == nm then B else fn)).map
            (fun fn => if fn == B then nm else fn)⟩,
         Field.mk nm (some ("_" ++ nm)) k rq nl) := by
      rw [renameFieldReg_eq _ B nm (Field.mk B (some ("_" ++ B)) k rq nl)
        (dget_dsetP_self _ _ _), hga]
      rfl
    exact ⟨_, _, e1, rfl, fun hc => Option.noConfusion hc, fun _ => rfl, _, e2,
      dget_dsetP_self _ _ _⟩

/-! ## Claims C9 and C8 -/

theorem firstIllegal_of_mem (filtered : List String)
    (ud : List (String × Dict Nat)) (op : String) (dct : Dict Nat) (k : String)
    (hop : (op, dct) ∈ ud) (hk : k ∈ dkeys dct)
    (hill : illegalKey filtered k = true) :
    ∃ k2, firstIllegalKey filtered ud = some k2 := by
  induction ud with
  | nil => cases hop
  | cons p rest ih =>
      obtain ⟨o1, d1⟩ := p
      cases hf : (dkeys d1).find? (fun k0 => illegalKey filtered k0) with
      | some k2 => exact ⟨k2, by simp [firstIllegalKey, hf]⟩
      | none =>
          cases hop with
          | head =>
              have hnone := List.find?_eq_none.mp hf k hk
              exact absurd hill hnone
          | tail _ hmem =>
              obtain ⟨k2, h2⟩ := ih hmem
              exact ⟨k2, by simp [firstIllegalKey, hf, h2]⟩

/-- C9: the illegal-modification check matches filtered fields by raw string
prefix — any update key, in any operator document, that starts with the
character string of a filtered field and whose remainder (after stripping
leading dots) contains no further dot makes `_extract_extra_updates` raise the
validation error, including sibling-field keys such as `dets.detections2`. -/
theorem filtered_prefix_check (self : DVal)
    (update_doc : List (String × Dict Nat)) (filtered : List String)
    (ff k op : String) (dct : Dict Nat)
    (hff : ff ∈ filtered) (hop : (op, dct) ∈ update_doc) (hk : k ∈ dkeys dct)
    (hpre : strStarts k ff = true)
    (hdots : countDots (lstripDots (strDrop k ff.length)) = 0) :
    ∃ k2, extractExtraUpdates self update_doc filtered
      = .error (.filteredRootModify k2) := by
  have hill : illegalKey filtered k = true := by
    unfold illegalKey
    refine List.any_eq_true.mpr ⟨ff, hff, ?_⟩
    simp [hpre, hdots]
  obtain ⟨k2, hfi⟩ := firstIllegal_of_mem filtered update_doc op dct k hop hk
    hill
  have hne : filtered.isEmpty = false := by
    cases filtered with
    | nil => cases hff
    | cons a l => rfl
  refine ⟨k2, ?_⟩
  unfold extractExtraUpdates
  simp [hne, hfi]

/-- Witness for C9: the sibling-field key `dets.detections2` of the filtered
field `dets.detections` is rejected. -/
theorem filtered_prefix_check_witness :
    ∃ k2, extractExtraUpdates DVal.prim [("$set", [("dets.detections2", 1)])]
      ["dets.detections"] = .error (.filteredRootModify k2) :=
  filtered_prefix_check DVal.prim [("$set", [("dets.detections2", 1)])]
    ["dets.detections"] "dets.detections" "dets.detections2" "$set"
    [("dets.detections2", 1)] (by simp) (by simp) (by simp [dkeys])
    (by decide) (by decide)

theorem extract_single_set (self : DVal) (filtered : List String) (k : String)
    (v : Nat) (ff elf : String) (eid : Nat)
    (hne : filtered.isEmpty = false)
    (hfi : firstIllegalKey filtered [("$set", [(k, v)])] = none)
    (hfind : filtered.find? (fun f0 => strStarts k f0) = some ff)
    (hp : parseIdAndArrayFilter self k ff = .ok (eid, elf)) :
    extractExtraUpdates self [("$set", [(k, v)])] filtered
      = .ok ([], [((elf, v), eid)]) := by
  unfold extractExtraUpdates
  simp only [hne, Bool.false_eq_true, if_false, hfi]
  have hdget : dget [("$set", [(k, v)])] "$set" = some [(k, v)] := by
    simp [dget]
  simp only [hdget]
  have hsl : setLoop self filtered [(k, v)] = .ok ([k], [((elf, v), eid)]) := by
    unfold setLoop
    simp only [hfind, hp]
    rfl
  simp only [hsl]
  have hfil : List.filter (fun p => !(List.contains [k] p.1))
      [(k, v)] = [] := by
    simp [List.filter]
  simp only [hfil]
  simp [ddel]

/-- C8: with filtered field `dets.detections` whose live list has an element
with identifier `i` at index 1, a `$set` update of `dets.detections.1.label`
is removed from the primary update document (emptying it) and becomes an
element-scoped update of `dets.detections.$[element].label` paired with `i`;
updates targeting `dets.detections` or `dets.detections.1` directly raise the
validation error and produce no extra update. -/
theorem extract_extra_updates_behavior (self : DVal) (v : Nat) (xs : List DVal)
    (i : Nat) (sub : List (String × DVal))
    (hwalk : walkFiltered self (splitDots "dets.detections") = .ok (.arr xs))
    (hel : xs.get? 1 = some (.obj (some i) sub)) :
    extractExtraUpdates self [("$set", [("dets.detections.1.label", v)])]
        ["dets.detections"]
      = .ok ([], [(("dets.detections.$[element].label", v), i)]) ∧
    extractExtraUpdates self [("$set", [("dets.detections", v)])]
        ["dets.detections"]
      = .error (.filteredRootModify "dets.detections") ∧
    extractExtraUpdates self [("$set", [("dets.detections.1", v)])]
        ["dets.detections"]
      = .error (.filteredRootModify "dets.detections.1") := by
  refine ⟨?_, rfl, rfl⟩
  have hpars : parseIdAndArrayFilter self "dets.detections.1.label"
      "dets.detections" = .ok (i, "dets.detections.$[element].label") := by
    have h1 : parseIdAndArrayFilter self "dets.detections.1.label"
        "dets.detections"
        = (match walkFiltered self (splitDots "dets.detections") with
           | .error e => .error e
           | .ok el =>
              match el.index 1 with
              | none => .error (.badListIndex "1")
              | some elem =>
                  match elem.elId with
                  | none => .error (.missingValue "_id")
                  | some i2 =>
                      .ok (i2, "dets.detections.$[element].label")) := rfl
    rw [h1, hwalk]
    dsimp only
    rw [show (DVal.arr xs).index 1 = xs.get? 1 from rfl, hel]
    rfl
  exact extract_single_set self ["dets.detections"] "dets.detections.1.label"
    v "dets.detections" "dets.detections.$[element].label" i rfl rfl rfl hpars

/-- The element at index 1 of the C8 witness document, with identifier 77. -/
def eltW : DVal := .obj (some 77) [("label", .prim)]

/-- The C8 witness document: `dets.detections` is a live two-element list. -/
def detsDocW : DVal :=
  .obj none [("dets", .obj none [("detections", .arr [.obj (some 5) [], eltW])])]

/-- Witness for C8 at a concrete live document. -/
theorem extract_extra_updates_behavior_witness :
    extractExtraUpdates detsDocW
        [("$set", [("dets.detections.1.label", 42)])] ["dets.detections"]
      = .ok ([], [(("dets.detections.$[element].label", 42), 77)]) ∧
    extractExtraUpdates detsDocW [("$set", [("dets.detections", 42)])]
        ["dets.detections"]
      = .error (.filteredRootModify "dets.detections") ∧
    extractExtraUpdates detsDocW [("$set", [("dets.detections.1", 42)])]
        ["dets.detections"]
      = .error (.filteredRootModify "dets.detections.1") :=
  extract_extra_updates_behavior detsDocW 42 [.obj (some 5) [], eltW] 77
    [("label", .prim)] rfl rfl

/-! ## Claim C1 -/

/-- The first violated validation check of one rename pair, in the order the
source checks them: immutable default field, missing old name, already-existing
new name, invalid new name. -/
def pairBadRename (env : Env) (media : String) (isFrames : Bool)
    (defaults : List String) (reg : Registry) (p : String × String) :
    Option Err :=
  if defaults.contains p.1 then some (.defaultField p.1)
  else
    match dget reg.fields p.1 with
    | none => some (.notFound p.1)
    | some _ =>
        if dmem reg.fields p.2 then some (.alreadyExists p.2)
        else if !(env.validateName p.2 media isFrames) then
          some (.invalidName p.2)
        else none

/-- The first violated validation check of one clone pair, in the order the
source checks them: missing old name, already-existing new name, group field,
invalid new name. -/
def pairBadClone (env : Env) (media : String) (isFrames : Bool)
    (reg : Registry) (p : String × String) : Option Err :=
  match dget reg.fields p.1 with
  | none => some (.notFound p.1)
  | some existing =>
      if dmem reg.fields p.2 then some (.alreadyExists p.2)
      else if isGroupField existing then some (.cloneGroup p.1)
      else if !(env.validateName p.2 media isFrames) then
        some (.invalidName p.2)
      else none

/-- The first violated check over a pair list. -/
def firstBad (f : (String × String) → Option Err) :
    List (String × String) → Option Err
  | [] => none
  | p :: rest =>
      match f p with
      | some e => some e
      | none => firstBad f rest

theorem renameValidate_err (env : Env) (media : String) (isFrames : Bool)
    (defaults : List String) (reg : Registry) (pairs : List (String × String))
    (e : Err)
    (h : firstBad (pairBadRename env media isFrames defaults reg) pairs
      = some e) :
    ∀ gf, ∃ gf2, renameValidatePairs env media isFrames defaults reg pairs gf
      = .error (e, gf2) := by
  induction pairs with
  | nil => simp [firstBad] at h
  | cons p rest ih =>
      intro gf
      obtain ⟨fn, nfn⟩ := p
      by_cases h1 : fn ∈ defaults
      · simp [firstBad, pairBadRename, h1] at h
        subst h
        exact ⟨gf, by simp [renameValidatePairs, h1]⟩
      · cases h2 : dget reg.fields fn with
        | none =>
            simp [firstBad, pairBadRename, h1, h2] at h
            subst h
            exact ⟨gf, by simp [renameValidatePairs, h1, h2]⟩
        | some existing =>
            by_cases h3 : dmem reg.fields nfn
            · simp [firstBad, pairBadRename, h1, h2, h3] at h
              subst h
              exact ⟨gf, by simp [renameValidatePairs, h1, h2, h3]⟩
            · simp only [Bool.not_eq_true] at h3
              by_cases h4 : env.validateName nfn media isFrames
              · simp [firstBad, pairBadRename, h1, h2, h3, h4] at h
                obtain ⟨gf2, h5⟩ := ih h
                  ((if isGroupField existing then some nfn else gf))
                exact ⟨gf2, by simp [renameValidatePairs, h1, h2, h3, h4, h5]⟩
              · simp only [Bool.not_eq_true] at h4
                simp [firstBad, pairBadRename, h1, h2, h3, h4] at h
                subst h
                exact ⟨gf, by simp [renameValidatePairs, h1, h2, h3, h4]⟩

theorem renameValidate_ok (env : Env) (media : String) (isFrames : Bool)
    (defaults : List String) (reg : Registry) (pairs : List (String × String))
    (h : firstBad (pairBadRename env media isFrames defaults reg) pairs
      = none) :
    ∀ gf, ∃ gf2, renameValidatePairs env media isFrames defaults reg pairs gf
      = .ok gf2 := by
  induction pairs with
  | nil => exact fun gf => ⟨gf, rfl⟩
  | cons p rest ih =>
      intro gf
      obtain ⟨fn, nfn⟩ := p
      by_cases h1 : fn ∈ defaults
      · simp [firstBad, pairBadRename, h1] at h
      · cases h2 : dget reg.fields fn with
        | none => simp [firstBad, pairBadRename, h1, h2] at h
        | some existing =>
            by_cases h3 : dmem reg.fields nfn
            · simp [firstBad, pairBadRename, h1, h2, h3] at h
            · simp only [Bool.not_eq_true] at h3
              by_cases h4 : env.validateName nfn media isFrames
              · simp [firstBad, pairBadRename, h1, h2, h3, h4] at h
                obtain ⟨gf2, h5⟩ := ih h
                  ((if isGroupField existing then some nfn else gf))
                exact ⟨gf2, by simp [renameValidatePairs, h1, h2, h3, h4, h5]⟩
              · simp only [Bool.not_eq_true] at h4
                simp [firstBad, pairBadRename, h1, h2, h3, h4] at h

theorem cloneValidate_err (env : Env) (media : String) (isFrames : Bool)
    (reg : Registry) (pairs : List (String × String)) (e : Err)
    (h : firstBad (pairBadClone env media isFrames reg) pairs = some e) :
    cloneValidatePairs env media isFrames reg pairs = .error e := by
  induction pairs with
  | nil => simp [firstBad] at h
  | cons p rest ih =>
      obtain ⟨fn, nfn⟩ := p
      cases h2 : dget reg.fields fn with
      | none =>
          simp [firstBad, pairBadClone, h2] at h
          subst h
          simp [cloneValidatePairs, h2]
      | some existing =>
          by_cases h3 : dmem reg.fields nfn
          · simp [firstBad, pairBadClone, h2, h3] at h
            subst h
            simp [cloneValidatePairs, h2, h3]
          · simp only [Bool.not_eq_true] at h3
            by_cases h4 : isGroupField existing
            · simp [firstBad, pairBadClone, h2, h3, h4] at h
              subst h
              simp [cloneValidatePairs, h2, h3, h4]
            · simp only [Bool.not_eq_true] at h4
              by_cases h5 : env.validateName nfn media isFrames
              · simp [firstBad, pairBadClone, h2, h3, h4, h5] at h
                simp [cloneValidatePairs, h2, h3, h4, h5, ih h]
              · simp only [Bool.not_eq_true] at h5
                simp [firstBad, pairBadClone, h2, h3, h4, h5] at h
                subst h
                simp [cloneValidatePairs, h2, h3, h4, h5]

theorem cloneValidate_ok (env : Env) (media : String) (isFrames : Bool)
    (reg : Registry) (pairs : List (String × String))
    (h : firstBad (pairBadClone env media isFrames reg) pairs = none) :
    cloneValidatePairs env media isFrames reg pairs = .ok () := by
  induction pairs with
  | nil => rfl
  | cons p rest ih =>
      obtain ⟨fn, nfn⟩ := p
      cases h2 : dget reg.fields fn with
      | none => simp [firstBad, pairBadClone, h2] at h
      | some existing =>
          by_cases h3 : dmem reg.fields nfn
          · simp [firstBad, pairBadClone, h2, h3] at h
          · simp only [Bool.not_eq_true] at h3
            by_cases h4 : isGroupField existing
            · simp [firstBad, pairBadClone, h2, h3, h4] at h
            · simp only [Bool.not_eq_true] at h4
              by_cases h5 : env.validateName nfn media isFrames
              · simp [firstBad, pairBadClone, h2, h3, h4, h5] at h
                simp [cloneValidatePairs, h2, h3, h4, h5, ih h]
              · simp only [Bool.not_eq_true] at h5
                simp [firstBad, pairBadClone, h2, h3, h4, h5] at h

theorem renameFieldSchemaSt_frame (isFrames : Bool) (fn nfn : String)
    (st : GState) :
    (renameFieldSchemaSt isFrames fn nfn st).2.storage = st.storage ∧
    (renameFieldSchemaSt isFrames fn nfn st).2.savedDocs = st.savedDocs ∧
    (renameFieldSchemaSt isFrames fn nfn st).2.doc.app_config
      = st.doc.app_config := by
  unfold renameFieldSchemaSt
  cases renameFieldReg st.reg fn nfn with
  | error e => exact ⟨rfl, rfl, rfl⟩
  | ok pr =>
      obtain ⟨reg2, field2⟩ := pr
      refine ⟨rfl, rfl, ?_⟩
      cases isFrames <;> rfl

theorem renameSchemaLoop_frame (isFrames : Bool)
    (pairs : List (String × String)) : ∀ (st : GState),
    (renameSchemaLoop isFrames pairs st).2.storage = st.storage ∧
    (renameSchemaLoop isFrames pairs st).2.savedDocs = st.savedDocs ∧
    (renameSchemaLoop isFrames pairs st).2.doc.app_config
      = st.doc.app_config := by
  induction pairs with
  | nil => exact fun st => ⟨rfl, rfl, rfl⟩
  | cons p rest ih =>
      intro st
      obtain ⟨fn, nfn⟩ := p
      obtain ⟨hs, hv, ha⟩ := renameFieldSchemaSt_frame isFrames fn nfn st
      unfold renameSchemaLoop
      cases hr : renameFieldSchemaSt isFrames fn nfn st with
      | mk r1 st2 =>
          rw [hr] at hs hv ha
          cases r1 with
          | error e => exact ⟨hs, hv, ha⟩
          | ok u =>
              obtain ⟨hs2, hv2, ha2⟩ := ih st2
              exact ⟨hs2.trans hs, hv2.trans hv, ha2.trans ha⟩

theorem addFieldSchema_frame (isFrames : Bool) (path : String) (field : Field)
    (st : GState) :
    (addFieldSchema isFrames path field st).2.storage = st.storage ∧
    (addFieldSchema isFrames path field st).2.savedDocs = st.savedDocs ∧
    (addFieldSchema isFrames path field st).2.doc.app_config
      = st.doc.app_config := by
  have happ : ∀ fs, (st.doc.setFieldsAttr isFrames fs).app_config
      = st.doc.app_config := by
    intro fs
    cases isFrames <;> rfl
  unfold addFieldSchema
  dsimp only
  repeat' split
  all_goals
    first
      | exact ⟨rfl, rfl, happ _⟩
      | exact ⟨rfl, rfl, rfl⟩

theorem cloneSchemaLoop_frame (isFrames : Bool)
    (pairs : List (String × String)) : ∀ (st : GState),
    (cloneSchemaLoop isFrames pairs st).2.storage = st.storage ∧
    (cloneSchemaLoop isFrames pairs st).2.savedDocs = st.savedDocs ∧
    (cloneSchemaLoop isFrames pairs st).2.doc.app_config
      = st.doc.app_config := by
  induction pairs with
  | nil => exact fun st => ⟨rfl, rfl, rfl⟩
  | cons p rest ih =>
      intro st
      obtain ⟨fn, nfn⟩ := p
      have hstep : (cloneFieldSchemaSt isFrames fn nfn st).2.storage
          = st.storage ∧
          (cloneFieldSchemaSt isFrames fn nfn st).2.savedDocs = st.savedDocs ∧
          (cloneFieldSchemaSt isFrames fn nfn st).2.doc.app_config
            = st.doc.app_config := by
        unfold cloneFieldSchemaSt
        cases dget st.reg.fields fn with
        | none => exact ⟨rfl, rfl, rfl⟩
        | some field => exact addFieldSchema_frame isFrames nfn field st
      unfold cloneSchemaLoop
      obtain ⟨hs, hv, ha⟩ := hstep
      cases hr : cloneFieldSchemaSt isFrames fn nfn st with
      | mk r1 st2 =>
          rw [hr] at hs hv ha
          cases r1 with
          | error e => exact ⟨hs, hv, ha⟩
          | ok u =>
              obtain ⟨hs2, hv2, ha2⟩ := ih st2
              exact ⟨hs2.trans hs, hv2.trans hv, ha2.trans ha⟩

/-- C1: the batch rename and clone operations validate every pair before any
mutation.  If any pair violates a validation check, the whole batch aborts with
the first violated check's error and the storage trace, the field registry, the
persisted snapshots, and the persisted field-descriptor lists are all exactly as
before; when no check is violated on a nonempty batch, exactly one bulk storage
operation of the right kind is issued. -/
theorem rename_clone_validate_before_mutate :
    (∀ (env : Env) (isFrames : Bool) (fns nfns : List String) (st : GState)
      (e : Err),
      firstBad (pairBadRename env st.doc.media_type isFrames
        (getDefaultFields env none isFrames) st.reg) (fns.zip nfns) = some e →
      (renameFields env isFrames fns nfns st).1 = .error e ∧
      (renameFields env isFrames fns nfns st).2.reg = st.reg ∧
      (renameFields env isFrames fns nfns st).2.storage = st.storage ∧
      (renameFields env isFrames fns nfns st).2.savedDocs = st.savedDocs ∧
      (renameFields env isFrames fns nfns st).2.doc.sample_fields
        = st.doc.sample_fields ∧
      (renameFields env isFrames fns nfns st).2.doc.frame_fields
        = st.doc.frame_fields) ∧
    (∀ (env : Env) (isFrames : Bool) (fns nfns : List String) (st : GState)
      (e : Err),
      firstBad (pairBadClone env st.doc.media_type isFrames st.reg)
        (fns.zip nfns) = some e →
      cloneFields env isFrames fns nfns st = (.error e, st)) ∧
    (∀ (env : Env) (isFrames : Bool) (fns nfns : List String) (st : GState),
      firstBad (pairBadRename env st.doc.media_type isFrames
        (getDefaultFields env none isFrames) st.reg) (fns.zip nfns) = none →
      fns ≠ [] →
      ∃ expr, (renameFields env isFrames fns nfns st).2.storage
        = st.storage ++ [.renameOp expr]) ∧
    (∀ (env : Env) (isFrames : Bool) (fns nfns : List String) (st : GState),
      firstBad (pairBadClone env st.doc.media_type isFrames st.reg)
        (fns.zip nfns) = none →
      fns ≠ [] →
      ∃ expr, (cloneFields env isFrames fns nfns st).2.storage
        = st.storage ++ [.cloneOp expr]) := by
  refine ⟨?_, ?_, ?_, ?_⟩
  · intro env isFrames fns nfns st e h
    obtain ⟨gf2, hv⟩ := renameValidate_err env st.doc.media_type isFrames
      (getDefaultFields env none isFrames) st.reg (fns.zip nfns) e h
      st.doc.group_field
    unfold renameFields
    dsimp only
    rw [hv]
    exact ⟨rfl, rfl, rfl, rfl, rfl, rfl⟩
  · intro env isFrames fns nfns st e h
    have hv := cloneValidate_err env st.doc.media_type isFrames st.reg
      (fns.zip nfns) e h
    unfold cloneFields
    dsimp only
    rw [hv]
  · intro env isFrames fns nfns st h hne
    obtain ⟨gf2, hv⟩ := renameValidate_ok env st.doc.media_type isFrames
      (getDefaultFields env none isFrames) st.reg (fns.zip nfns) h
      st.doc.group_field
    unfold renameFields
    dsimp only
    rw [hv]
    dsimp only
    have hnee : fns.isEmpty = false := by
      cases fns with
      | nil => exact absurd rfl hne
      | cons a l => rfl
    unfold renameFieldsSimple
    rw [hnee, if_neg (by decide : ¬(false = true))]
    set st1 : GState := { st with doc := { st.doc with group_field := gf2 } }
      with hst1
    set prs := (fns.zip nfns).map
      (fun p => handleDbFieldPair st1.reg p.1 p.2) with hprs
    set expr := prs.foldl (fun d p => dsetP d p.1 p.2) ([] : Dict String)
      with hexpr
    set st2 : GState := { st1 with storage := st1.storage ++ [.renameOp expr] }
      with hst2
    refine ⟨expr, ?_⟩
    obtain ⟨hs, _, _⟩ := renameSchemaLoop_frame isFrames (fns.zip nfns) st2
    cases hr : renameSchemaLoop isFrames (fns.zip nfns) st2 with
    | mk r1 st3 =>
        rw [hr] at hs
        cases r1 with
        | error e2 => exact hs
        | ok u => exact hs
  · intro env isFrames fns nfns st h hne
    have hv := cloneValidate_ok env st.doc.media_type isFrames st.reg
      (fns.zip nfns) h
    unfold cloneFields
    dsimp only
    rw [hv]
    dsimp only
    have hnee : fns.isEmpty = false := by
      cases fns with
      | nil => exact absurd rfl hne
      | cons a l => rfl
    unfold cloneFieldsSimple
    rw [hnee, if_neg (by decide : ¬(false = true))]
    set prs := (fns.zip nfns).map
      (fun p => handleDbFieldPair st.reg p.1 p.2) with hprs
    set expr := prs.foldl (fun d p => dsetP d p.2 ("$" ++ p.1)) ([] : Dict String)
      with hexpr
    set st2 : GState := { st with storage := st.storage ++ [.cloneOp expr] }
      with hst2
    refine ⟨expr, ?_⟩
    obtain ⟨hs, _, _⟩ := cloneSchemaLoop_frame isFrames (fns.zip nfns) st2
    cases hr : cloneSchemaLoop isFrames (fns.zip nfns) st2 with
    | mk r1 st3 =>
        rw [hr] at hs
        cases r1 with
        | error e2 => exact hs
        | ok u => exact hs

/-- A registry with one renameable scalar field and one default field, shared
by the C1 and C6 witnesses. -/
def regB : Registry :=
  ⟨[("a", .mk "a" none (.scalarK "StringField") false false),
    ("id", .mk "id" (some "_id") .objectIdK false false)], ["a", "id"]⟩

/-- The state of the C1 witness. -/
def stB : GState := ⟨regB, docW, [], []⟩

/-- Witness for C1 at concrete states: a rename batch whose second pair names a
missing field aborts with that error and changes nothing; a clone batch whose
target exists aborts likewise; valid nonempty batches issue their bulk storage
operation. -/
theorem rename_clone_validate_before_mutate_witness :
    ((renameFields envW false ["a", "ghost"] ["x", "y"] stB).1
      = .error (.notFound "ghost") ∧
     (renameFields envW false ["a", "ghost"] ["x", "y"] stB).2.storage = [] ∧
     (renameFields envW false ["a", "ghost"] ["x", "y"] stB).2.reg = regB) ∧
    cloneFields envW false ["a"] ["id"] stB = (.error (.alreadyExists "id"), stB) ∧
    (∃ expr, (renameFields envW false ["a"] ["z"] stB).2.storage
      = [StorageOp.renameOp expr]) ∧
    (∃ expr, (cloneFields envW false ["a"] ["z"] stB).2.storage
      = [StorageOp.cloneOp expr]) := by
  have h1 := (rename_clone_validate_before_mutate.1) envW false ["a", "ghost"]
    ["x", "y"] stB (.notFound "ghost") (by rfl)
  have h2 := (rename_clone_validate_before_mutate.2.1) envW false ["a"] ["id"]
    stB (.alreadyExists "id") (by rfl)
  have h3 := (rename_clone_validate_before_mutate.2.2.1) envW false ["a"] ["z"]
    stB (by rfl) (by simp)
  have h4 := (rename_clone_validate_before_mutate.2.2.2) envW false ["a"] ["z"]
    stB (by rfl) (by simp)
  exact ⟨⟨h1.1, h1.2.2.1, h1.2.1⟩, h2, h3, h4⟩

/-! ## Claim C4 -/

theorem dmem_append {α : Type} (d1 d2 : Dict α) (m : String) :
    dmem (d1 ++ d2) m = (dmem d1 m || dmem d2 m) := by
  unfold dmem
  rw [dget_append]
  cases hg : dget d1 m with
  | none => simp [dmem, hg]
  | some v => simp [dmem, hg]

theorem dmem_ddel {α : Type} (d : Dict α) (k m : String) :
    dmem (ddel d k) m = (dmem d m && !(m == k)) := by
  by_cases h : m = k
  · subst h
    unfold dmem
    rw [dget_ddel_self]
    simp
  · unfold dmem
    rw [dget_ddel_ne _ _ _ h]
    simp [h]

theorem dmem_dsetP {α : Type} (d : Dict α) (k m : String) (v : α) :
    dmem (dsetP d k v) m = if m = k then true else dmem d m := by
  by_cases h : m = k
  · subst h
    unfold dmem
    rw [dget_dsetP_self]
    simp
  · unfold dmem
    rw [dget_dsetP_ne _ _ _ _ h]
    simp [h]

theorem dmem_single {α : Type} (k m : String) (v : α) :
    dmem [(k, v)] m = (k == m) := by
  cases hc : (k == m) <;> simp [dmem, dget, hc]

theorem dkeys_dsetP_new {α : Type} (d : Dict α) (k : String) (v : α)
    (h : dmem d k = false) : dkeys (dsetP d k v) = dkeys d ++ [k] := by
  unfold dsetP
  rw [h, if_neg (by decide : ¬(false = true)), dkeys_append]
  rfl

theorem dkeys_dsetP_old {α : Type} (d : Dict α) (k : String) (v : α)
    (h : dmem d k = true) : dkeys (dsetP d k v) = dkeys d := by
  unfold dsetP
  rw [h, if_pos rfl]
  exact dkeys_drepl d k v

theorem not_mem_keys_ddel {α : Type} (d : Dict α) (k : String) :
    k ∉ dkeys (ddel d k) := by
  rw [dkeys_ddel]
  intro hc
  have := List.of_mem_filter hc
  simp at this

theorem nodup_keys_ddel {α : Type} (d : Dict α) (k : String)
    (h : (dkeys d).Nodup) : (dkeys (ddel d k)).Nodup := by
  rw [dkeys_ddel]
  exact h.filter _

theorem map_subst_of_not_mem (l : List String) (old new : String)
    (h : old ∉ l) :
    l.map (fun fn => if fn == old then new else fn) = l := by
  induction l with
  | nil => rfl
  | cons x xs ih =>
      have hx : x ≠ old := by
        intro hc
        subst hc
        exact h (List.mem_cons_self _ _)
      have h2 : old ∉ xs := fun hc => h (List.mem_cons_of_mem _ hc)
      rw [List.map_cons, if_neg (show ¬((x == old) = true) by simp [hx]),
        ih h2]

theorem nodup_map_subst (l : List String) (old new : String) (hnd : l.Nodup)
    (hnew : new ∉ l) :
    (l.map (fun fn => if fn == old then new else fn)).Nodup := by
  induction l with
  | nil => exact List.nodup_nil
  | cons x xs ih =>
      obtain ⟨hx, hnd2⟩ := List.nodup_cons.mp hnd
      have hnew2 : new ∉ xs := fun hc => hnew (List.mem_cons_of_mem _ hc)
      have hnewx : new ≠ x := by
        intro hc
        subst hc
        exact hnew (List.mem_cons_self _ _)
      rw [List.map_cons]
      by_cases hxo : x = old
      · subst hxo
        rw [if_pos (show (x == x) = true by simp),
          map_subst_of_not_mem xs x new hx]
        exact List.nodup_cons.mpr ⟨hnew2, hnd2⟩
      · rw [if_neg (show ¬((x == old) = true) by simp [hxo])]
        refine List.nodup_cons.mpr ⟨?_, ih hnd2 hnew2⟩
        intro hc
        obtain ⟨y, hy, hsub⟩ := List.mem_map.mp hc
        by_cases hyo : y = old
        · subst hyo
          rw [if_pos (show (y == y) = true by simp)] at hsub
          exact hnewx hsub
        · rw [if_neg (show ¬((y == old) = true) by simp [hyo])] at hsub
          subst hsub
          exact hx hy

theorem subst_get (l : List String) (old new : String) (i : Nat)
    (h : l.get? i = some old) :
    (l.map (fun fn => if fn == old then new else fn)).get? i = some new := by
  rw [List.get?_map, h]
  simp

theorem declare_regInv (r : Registry) (f : Field) (h : RegInv r) :
    RegInv (declareField r f) := by
  obtain ⟨hiff, hnodO, hnodK⟩ := h
  obtain ⟨fn0, fd0, fk0, fr0, fu0⟩ := f
  have hnodK2 : ∀ (f2 : Field),
      (dkeys (ddel r.fields fn0 ++ [(fn0, f2)])).Nodup := by
    intro f2
    rw [dkeys_append]
    refine List.Nodup.append (nodup_keys_ddel _ _ hnodK)
      (List.nodup_singleton _) ?_
    intro a ha hb
    rw [show dkeys [(fn0, f2)] = [fn0] from rfl] at hb
    simp at hb
    rw [hb] at ha
    exact not_mem_keys_ddel r.fields fn0 ha
  have hmem2 : ∀ (f2 : Field) (m : String),
      dmem (ddel r.fields fn0 ++ [(fn0, f2)]) m
        = (dmem r.fields m && !(m == fn0) || (fn0 == m)) := by
    intro f2 m
    rw [dmem_append, dmem_ddel, dmem_single]
  have hcore : ∀ (f2 : Field) (ord2 : List String),
      (∀ m, m ∈ ord2 ↔ (m ∈ r.fields_ordered ∨ m = fn0)) → ord2.Nodup →
      RegInv ⟨ddel r.fields fn0 ++ [(fn0, f2)], ord2⟩ := by
    intro f2 ord2 hording hnod2
    refine ⟨?_, hnod2, hnodK2 f2⟩
    intro m
    rw [show (Registry.mk (ddel r.fields fn0 ++ [(fn0, f2)]) ord2).fields
      = ddel r.fields fn0 ++ [(fn0, f2)] from rfl]
    rw [hmem2 f2 m]
    rw [show (Registry.mk (ddel r.fields fn0 ++ [(fn0, f2)]) ord2).fields_ordered
      = ord2 from rfl]
    rw [hording m]
    by_cases hm : m = fn0
    · subst hm
      simp
    · constructor
      · intro hc
        simp only [Bool.or_eq_true, Bool.and_eq_true] at hc
        cases hc with
        | inl hc2 => exact Or.inl ((hiff m).mp hc2.1)
        | inr hc2 =>
            have : fn0 = m := by simpa using hc2
            exact absurd this.symm hm
      · intro hc
        cases hc with
        | inl hc2 =>
            have := (hiff m).mpr hc2
            simp only [Bool.or_eq_true, Bool.and_eq_true]
            exact Or.inl ⟨this, by simp [hm]⟩
        | inr hc2 => exact absurd hc2 hm
  unfold declareField
  cases hprev : dget r.fields (Field.mk fn0 fd0 fk0 fr0 fu0).name with
  | none =>
      dsimp only [Field.name, Field.withReqNull]
      have hnm : dmem r.fields fn0 = false := by
        simp only [dmem]
        rw [show dget r.fields fn0 = none from hprev]
        rfl
      have hnord : fn0 ∉ r.fields_ordered := by
        intro hc
        rw [← hiff fn0] at hc
        rw [hnm] at hc
        cases hc
      refine hcore _ _ ?_ ?_
      · intro m
        simp [List.mem_append]
      · exact List.Nodup.append hnodO (List.nodup_singleton _)
          (by intro a ha hb; simp at hb; subst hb; exact hnord ha)
  | some p =>
      dsimp only [Field.name, Field.withReqNull]
      refine hcore _ _ ?_ hnodO
      intro m
      have hnm : dmem r.fields fn0 = true := by
        simp only [dmem]
        rw [show dget r.fields fn0 = some p from hprev]
        rfl
      constructor
      · intro hc
        exact Or.inl hc
      · intro hc
        cases hc with
        | inl hc2 => exact hc2
        | inr hc2 =>
            subst hc2
            exact (hiff m).mp hnm

theorem map_subst_id (l : List String) (old : String) :
    l.map (fun fn => if fn == old then old else fn) = l := by
  induction l with
  | nil => rfl
  | cons x xs ih =>
      rw [List.map_cons]
      by_cases hx : x = old
      · subst hx
        rw [if_pos (show (x == x) = true by simp), ih]
      · rw [if_neg (show ¬((x == old) = true) by simp [hx]), ih]

theorem rename_regInv (r : Registry) (old new : String) (r2 : Registry)
    (fld : Field) (h : RegInv r)
    (hgood : new = old ∨ dmem r.fields new = false)
    (hok : renameFieldReg r old new = .ok (r2, fld)) : RegInv r2 := by
  obtain ⟨hiff, hnodO, hnodK⟩ := h
  unfold renameFieldReg at hok
  cases hget : dget r.fields old with
  | none => rw [hget] at hok; cases hok
  | some f =>
      rw [hget] at hok
      injection hok with hok
      injection hok with hok1 hok2
      subst hok1
      have hold : dmem r.fields old = true := by simp [dmem, hget]
      have holdord : old ∈ r.fields_ordered := (hiff old).mp hold
      by_cases hno : new = old
      · subst hno
        have hddm : dmem (ddel r.fields new) new = false := by
          rw [dmem_ddel]
          simp
        refine ⟨?_, ?_, ?_⟩
        · intro m
          dsimp only
          rw [dmem_dsetP, map_subst_id]
          by_cases hm : m = new
          · subst hm
            simp [holdord]
          · rw [if_neg hm, dmem_ddel]
            rw [show (!(m == new) : Bool) = true from by simp [hm]]
            rw [Bool.and_true]
            exact hiff m
        · dsimp only
          rw [map_subst_id]
          exact hnodO
        · dsimp only
          rw [dkeys_dsetP_new _ _ _ hddm]
          refine List.Nodup.append (nodup_keys_ddel _ _ hnodK)
            (List.nodup_singleton _) ?_
          intro a ha hb
          simp at hb
          rw [hb] at ha
          exact not_mem_keys_ddel r.fields new ha
      · have hnew : dmem r.fields new = false := by
          cases hgood with
          | inl hc => exact absurd hc hno
          | inr hc => exact hc
        have hnewordnot : new ∉ r.fields_ordered := by
          intro hc
          rw [← hiff new, hnew] at hc
          cases hc
        have hddm : dmem (ddel r.fields old) new = false := by
          rw [dmem_ddel, hnew]
          rfl
        refine ⟨?_, ?_, ?_⟩
        · intro m
          dsimp only
          rw [dmem_dsetP]
          by_cases hm : m = new
          · subst hm
            rw [if_pos rfl]
            refine ⟨fun _ => ?_, fun _ => rfl⟩
            exact List.mem_map.mpr ⟨old, holdord,
              by rw [if_pos (show (old == old) = true by simp)]⟩
          · rw [if_neg hm, dmem_ddel]
            constructor
            · intro hc
              obtain ⟨hc1, hc2⟩ := (Bool.and_eq_true _ _).mp hc
              have hmo : m ≠ old := by
                intro he
                subst he
                simp at hc2
              refine List.mem_map.mpr ⟨m, (hiff m).mp hc1, ?_⟩
              rw [if_neg (show ¬((m == old) = true) by simp [hmo])]
            · intro hc
              obtain ⟨y, hy, hsub⟩ := List.mem_map.mp hc
              by_cases hyo : y = old
              · subst hyo
                rw [if_pos (show (y == y) = true by simp)] at hsub
                exact absurd hsub.symm hm
              · rw [if_neg (show ¬((y == old) = true) by simp [hyo])] at hsub
                subst hsub
                rw [show (!(y == old) : Bool) = true from by simp [hyo]]
                rw [Bool.and_true]
                exact (hiff y).mpr hy
        · dsimp only
          exact nodup_map_subst _ _ _ hnodO hnewordnot
        · dsimp only
          rw [dkeys_dsetP_new _ _ _ hddm]
          refine List.Nodup.append (nodup_keys_ddel _ _ hnodK)
            (List.nodup_singleton _) ?_
          intro a ha hb
          simp at hb
          subst hb
          rw [dkeys_ddel] at ha
          have := List.mem_of_mem_filter ha
          rw [← dmem_iff_keys, hnew] at this
          cases this

theorem delete_regInv (r : Registry) (n : String) (r2 : Registry)
    (h : RegInv r) (hok : deleteFieldReg r n = .ok r2) : RegInv r2 := by
  obtain ⟨hiff, hnodO, hnodK⟩ := h
  unfold deleteFieldReg at hok
  cases hm : dmem r.fields n with
  | false =>
      rw [hm, if_neg (by decide : ¬(false = true))] at hok
      cases hok
  | true =>
      rw [hm, if_pos rfl] at hok
      injection hok with hok
      subst hok
      refine ⟨?_, hnodO.filter _, nodup_keys_ddel _ _ hnodK⟩
      intro m
      dsimp only
      rw [dmem_ddel]
      constructor
      · intro hc
        obtain ⟨hc1, hc2⟩ := (Bool.and_eq_true _ _).mp hc
        exact List.mem_filter.mpr ⟨(hiff m).mp hc1, hc2⟩
      · intro hc
        obtain ⟨hc1, hc2⟩ := List.mem_filter.mp hc
        rw [(hiff m).mpr hc1, hc2]
        rfl

theorem applyRegOps_inv : ∀ (ops : List RegOp) (r r2 : Registry),
    RegInv r → goodOps r ops = true → applyRegOps r ops = .ok r2 →
    RegInv r2 := by
  intro ops
  induction ops with
  | nil =>
      intro r r2 h _ hap
      injection hap with hap
      subst hap
      exact h
  | cons op rest ih =>
      intro r r2 h hg hap
      unfold applyRegOps at hap
      unfold goodOps at hg
      cases happ : applyRegOp r op with
      | error e => rw [happ] at hap; cases hap
      | ok r1 =>
          rw [happ] at hap hg
          obtain ⟨hg1, hg2⟩ := (Bool.and_eq_true _ _).mp hg
          have hinv1 : RegInv r1 := by
            cases op with
            | declareOp f =>
                unfold applyRegOp at happ
                injection happ with happ
                subst happ
                exact declare_regInv r f h
            | renameOp o n =>
                have happ2 : Except.map (fun p => p.1) (renameFieldReg r o n)
                    = Except.ok r1 := happ
                cases hrn : renameFieldReg r o n with
                | error e => rw [hrn] at happ2; cases happ2
                | ok pr =>
                    obtain ⟨rr, fl⟩ := pr
                    rw [hrn] at happ2
                    injection happ2 with happ2
                    subst happ2
                    refine rename_regInv r o n _ fl h ?_ hrn
                    unfold goodOp at hg1
                    rcases (Bool.or_eq_true _ _).mp hg1 with hg3 | hg3
                    · exact Or.inl (eq_of_beq hg3).symm
                    · refine Or.inr ?_
                      cases hc : dmem r.fields n with
                      | false => rfl
                      | true => rw [hc] at hg3; cases hg3
            | deleteOp n =>
                unfold applyRegOp at happ
                exact delete_regInv r n r1 h happ
          exact ih r1 r2 hinv1 hg2 hap

theorem rename_position (rr : Registry) (old new : String) (r3 : Registry)
    (fld : Field) (hok : renameFieldReg rr old new = Except.ok (r3, fld))
    (i : Nat) (hi : rr.fields_ordered.get? i = some old) :
    r3.fields_ordered.get? i = some new := by
  unfold renameFieldReg at hok
  cases hget : dget rr.fields old with
  | none => rw [hget] at hok; cases hok
  | some f =>
      rw [hget] at hok
      injection hok with hok
      injection hok with hok1 hok2
      subst hok1
      exact subst_get rr.fields_ordered old new i hi

def faC4 : Field := Field.mk "a" none (FKind.scalarK "S") false false

def fbC4 : Field := Field.mk "b" none (FKind.scalarK "S") false false

def fcC4 : Field := Field.mk "c" none (FKind.scalarK "S") false false

def regEmptyC4 : Registry := ⟨[], []⟩

def opsBadC4 : List RegOp :=
  [RegOp.declareOp faC4, RegOp.declareOp fbC4, RegOp.renameOp "a" "b"]

def regBadC4 : Registry :=
  ⟨[("b", Field.mk "b" none (FKind.scalarK "S") false false)], ["b", "b"]⟩

def opsGoodC4 : List RegOp :=
  [RegOp.declareOp faC4, RegOp.declareOp fbC4, RegOp.renameOp "a" "c",
    RegOp.deleteOp "b"]

def regGoodC4 : Registry := ⟨[("c", fcC4)], ["c"]⟩

def regPreC4 : Registry := ⟨[("a", faC4), ("b", fbC4)], ["a", "b"]⟩

def regMidC4 : Registry := ⟨[("b", fbC4), ("c", fcC4)], ["c", "b"]⟩

theorem regInv_empty : RegInv regEmptyC4 := by
  refine ⟨?_, List.nodup_nil, List.nodup_nil⟩
  intro n
  constructor
  · intro h
    simp [regEmptyC4, dmem, dget] at h
  · intro h
    simp [regEmptyC4] at h

/-- Claim C4, counterexample to the original statement: the registry
operations are not invariant-preserving in general.  Starting from the empty
registry (which satisfies the invariant), declaring fields `a` and `b` and
then renaming `a` to the already-occupied name `b` — a sequence
`_declare_field; _declare_field; _rename_field_schema` — succeeds, yet leaves
`_fields_ordered = ["b", "b"]`: the ordered sequence now contains a
duplicate, because `_rename_field_schema` rewrites every occurrence of the
old name in `_fields_ordered` without checking that the new name is fresh,
while `_fields` silently collapses to a single key.  The sequence is exactly
one rejected by `goodOps` (each rename's target fresh or equal to its
source), the condition the amended claim adds. -/
theorem registry_invariant_counterexample :
    RegInv regEmptyC4 ∧
    goodOps regEmptyC4 opsBadC4 = false ∧
    applyRegOps regEmptyC4 opsBadC4 = Except.ok regBadC4 ∧
    regBadC4.fields_ordered = ["b", "b"] ∧
    ¬ regBadC4.fields_ordered.Nodup := by
  refine ⟨regInv_empty, rfl, rfl, rfl, ?_⟩
  intro h
  rw [show regBadC4.fields_ordered = ["b", "b"] from rfl] at h
  simp at h

/-- Claim C4 (amended): after every sequence of registry operations
(`_declare_field` inserts/replacements, `_rename_field_schema` renames,
`_delete_field_schema` deletions) in which every rename's new name is either
equal to the old name or absent from the field mapping at the time of the
rename (the `goodOps` condition, which every engine caller validates before
invoking the schema-level rename), the registry invariant is preserved: the
set of keys of `_fields` equals the set of names in `_fields_ordered`, and
both `_fields_ordered` and the key list of `_fields` are duplicate-free.
Moreover a successful rename preserves the renamed field's position: if the
old name sat at index `i` of `_fields_ordered`, the new name sits at index
`i` afterwards. -/
theorem registry_invariant_preserved (ops : List RegOp) (r r2 : Registry)
    (h : RegInv r) (hg : goodOps r ops = true)
    (hap : applyRegOps r ops = Except.ok r2) :
    RegInv r2 ∧
    (∀ (rr r3 : Registry) (old new : String) (fld : Field) (i : Nat),
      renameFieldReg rr old new = Except.ok (r3, fld) →
      rr.fields_ordered.get? i = some old →
      r3.fields_ordered.get? i = some new) := by
  refine ⟨applyRegOps_inv ops r r2 h hg hap, ?_⟩
  intro rr r3 old new fld i hok hi
  exact rename_position rr old new r3 fld hok i hi

/-- Witness for C4: the good sequence declare `a`, declare `b`,
rename `a` to `c`, delete `b`, run from the empty registry, ends in the
registry `{c}` with ordered list `["c"]` and the invariant holds; and the
concrete rename of `a` to `c` keeps the renamed field at index 0. -/
theorem registry_invariant_preserved_witness :
    RegInv regEmptyC4 ∧
    goodOps regEmptyC4 opsGoodC4 = true ∧
    applyRegOps regEmptyC4 opsGoodC4 = Except.ok regGoodC4 ∧
    RegInv regGoodC4 ∧
    regMidC4.fields_ordered.get? 0 = some "c" := by
  have h1 : RegInv regEmptyC4 := regInv_empty
  have h2 : goodOps regEmptyC4 opsGoodC4 = true := rfl
  have h3 : applyRegOps regEmptyC4 opsGoodC4 = Except.ok regGoodC4 := rfl
  have hmain := registry_invariant_preserved opsGoodC4 regEmptyC4 regGoodC4 h1 h2 h3
  exact ⟨h1, h2, h3, hmain.1, hmain.2 regPreC4 regMidC4 "a" "c" fcC4 0 rfl rfl⟩

/-! ## Claims C6 and C10 -/

theorem firstBad_of_default (env : Env) (media : String) (isFrames : Bool)
    (defaults : List String) (reg : Registry) (pairs : List (String × String))
    (d : String) (hd : defaults.contains d = true)
    (hmem : d ∈ pairs.map Prod.fst) :
    ∃ e, firstBad (pairBadRename env media isFrames defaults reg) pairs
      = some e := by
  induction pairs with
  | nil => simp at hmem
  | cons p rest ih =>
      obtain ⟨fn, nfn⟩ := p
      cases hpb : pairBadRename env media isFrames defaults reg (fn, nfn) with
      | some e => exact ⟨e, by simp [firstBad, hpb]⟩
      | none =>
          simp only [List.map_cons, List.mem_cons] at hmem
          cases hmem with
          | inl heq =>
              subst heq
              unfold pairBadRename at hpb
              dsimp only at hpb
              rw [hd, if_pos rfl] at hpb
              cases hpb
          | inr hm2 =>
              obtain ⟨e, he⟩ := ih hm2
              exact ⟨e, by simp [firstBad, hpb, he]⟩

theorem scanDeletes_raises (defaults : List String) (reg : Registry)
    (fns : List String) (d : String) (hd : defaults.contains d = true)
    (hmem : d ∈ fns) : ∃ e, scanDeletes defaults reg 0 fns = .error e := by
  induction fns with
  | nil => cases hmem
  | cons fn rest ih =>
      cases h1 : defaults.contains fn with
      | true =>
          refine ⟨.defaultField fn, ?_⟩
          unfold scanDeletes
          rw [h1, if_pos rfl]
          rfl
      | false =>
          have hne : d ≠ fn := by
            intro hc
            subst hc
            rw [hd] at h1
            cases h1
          have hmem2 : d ∈ rest := by
            cases hmem with
            | head => exact absurd rfl hne
            | tail _ hm => exact hm
          cases h2 : dmem reg.fields fn with
          | false =>
              refine ⟨.notFound fn, ?_⟩
              unfold scanDeletes
              rw [h1, if_neg (by decide : ¬(false = true)), h2,
                show (!false : Bool) = true from rfl, if_pos rfl]
              rfl
          | true =>
              obtain ⟨e, he⟩ := ih hmem2
              refine ⟨e, ?_⟩
              unfold scanDeletes
              rw [h1, if_neg (by decide : ¬(false = true)), h2,
                show (!true : Bool) = false from rfl,
                if_neg (by decide : ¬(false = true)), he]
              rfl

theorem scanDeletes_tolerant (defaults : List String) (reg : Registry)
    (lvl : Nat) (h : (lvl == 0) = false) (fns : List String) :
    scanDeletes defaults reg lvl fns
      = .ok (fns.filter
          (fun fn => !(defaults.contains fn) && dmem reg.fields fn)) := by
  induction fns with
  | nil => rfl
  | cons fn rest ih =>
      cases h1 : defaults.contains fn with
      | true =>
          have h1m : fn ∈ defaults := by simpa using h1
          unfold scanDeletes
          rw [h1, if_pos rfl, h, if_neg (by decide : ¬(false = true)), ih]
          simp [List.filter_cons, h1m]
      | false =>
          have h1m : ¬(fn ∈ defaults) := by simpa using h1
          cases h2 : dmem reg.fields fn with
          | false =>
              unfold scanDeletes
              rw [h1, if_neg (by decide : ¬(false = true)), h2,
                show (!false : Bool) = true from rfl, if_pos rfl, h,
                if_neg (by decide : ¬(false = true)), ih]
              simp [List.filter_cons, h1m, h2]
          | true =>
              unfold scanDeletes
              rw [h1, if_neg (by decide : ¬(false = true)), h2,
                show (!true : Bool) = false from rfl,
                if_neg (by decide : ¬(false = true)), ih]
              simp [List.filter_cons, h1m, h2, Except.map]

theorem setFieldsAttr_app_config (doc : DatasetDoc) (isFrames : Bool)
    (fs : List FieldDoc) :
    (doc.setFieldsAttr isFrames fs).app_config = doc.app_config := by
  cases isFrames <;> rfl

theorem deleteFieldSchemaSt_ok (isFrames : Bool) (fn : String) (st : GState)
    (h : dmem st.reg.fields fn = true) :
    ∃ st2, deleteFieldSchemaSt isFrames fn st = (.ok (), st2) ∧
      st2.reg.fields = ddel st.reg.fields fn ∧
      st2.storage = st.storage ∧ st2.savedDocs = st.savedDocs ∧
      st2.doc.app_config = st.doc.app_config := by
  unfold deleteFieldSchemaSt deleteFieldReg
  rw [h, if_pos rfl]
  exact ⟨_, rfl, rfl, rfl, rfl, setFieldsAttr_app_config st.doc isFrames _⟩

theorem deleteSchemaLoop_ok (isFrames : Bool) : ∀ (del : List String)
    (st : GState), (∀ m ∈ del, dmem st.reg.fields m = true) → del.Nodup →
    ∃ st2, deleteSchemaLoop isFrames del st = (.ok (), st2) ∧
      st2.storage = st.storage ∧ st2.savedDocs = st.savedDocs ∧
      st2.doc.app_config = st.doc.app_config := by
  intro del
  induction del with
  | nil => exact fun st _ _ => ⟨st, rfl, rfl, rfl, rfl⟩
  | cons fn rest ih =>
      intro st hmem hnd
      obtain ⟨st2, he, hf, hs, hv, ha⟩ := deleteFieldSchemaSt_ok isFrames fn st
        (hmem fn (List.mem_cons_self _ _))
      have hmem2 : ∀ m ∈ rest, dmem st2.reg.fields m = true := by
        intro m hm
        have hne : m ≠ fn := by
          intro hc
          subst hc
          exact (List.nodup_cons.mp hnd).1 hm
        rw [show dmem st2.reg.fields m = (dget st2.reg.fields m).isSome from rfl]
        rw [hf, dget_ddel_ne _ _ _ hne]
        exact hmem m (List.mem_cons_of_mem _ hm)
      obtain ⟨st3, he3, hs3, hv3, ha3⟩ := ih st2 hmem2 (List.nodup_cons.mp hnd).2
      refine ⟨st3, ?_, hs3.trans hs, hv3.trans hv, ha3.trans ha⟩
      unfold deleteSchemaLoop
      rw [he]
      exact he3

/-- The deletable sublist of a delete request: the requested names that are
neither default fields nor missing, in order. -/
def deletableOf (env : Env) (isFrames : Bool) (st : GState)
    (fns : List String) : List String :=
  fns.filter (fun fn =>
    !((getDefaultFields env (some st.doc) isFrames).contains fn)
      && dmem st.reg.fields fn)

theorem deleteFields_tolerant_empty (env : Env) (isFrames : Bool)
    (fns : List String) (lvl : Nat) (st : GState)
    (hlvl : (lvl == 0) = false)
    (hdel : deletableOf env isFrames st fns = []) :
    deleteFields env isFrames fns lvl st = (.ok (), st) := by
  unfold deleteFields
  dsimp only
  rw [scanDeletes_tolerant _ _ _ hlvl]
  rw [show (fns.filter (fun fn =>
    !((getDefaultFields env (some st.doc) isFrames).contains fn)
      && dmem st.reg.fields fn)) = deletableOf env isFrames st fns from rfl]
  rw [hdel]
  rfl

theorem deleteFields_tolerant_ok (env : Env) (isFrames : Bool)
    (fns : List String) (lvl : Nat) (st : GState)
    (hlvl : (lvl == 0) = false) (hnd : fns.Nodup)
    (hne : deletableOf env isFrames st fns ≠ []) :
    ∃ st2, deleteFields env isFrames fns lvl st = (.ok (), st2) ∧
      st2.doc.app_config.deleteCalls
        = st.doc.app_config.deleteCalls ++ [fns] ∧
      st2.savedDocs.length = st.savedDocs.length + 1 ∧
      st2.storage = st.storage ++ [.unsetOp
        ((deletableOf env isFrames st fns).map (handleDbField1 st.reg))] := by
  unfold deleteFields
  dsimp only
  rw [scanDeletes_tolerant _ _ _ hlvl]
  rw [show (fns.filter (fun fn =>
    !((getDefaultFields env (some st.doc) isFrames).contains fn)
      && dmem st.reg.fields fn)) = deletableOf env isFrames st fns from rfl]
  dsimp only
  have hie : (deletableOf env isFrames st fns).isEmpty = false := by
    cases hc : deletableOf env isFrames st fns with
    | nil => exact absurd hc hne
    | cons a l => rfl
  rw [hie, if_neg (by decide : ¬(false = true))]
  unfold deleteFieldsSimple
  rw [hie, if_neg (by decide : ¬(false = true))]
  set del := deletableOf env isFrames st fns with hdel
  set st1 : GState :=
    { st with storage := st.storage ++ [.unsetOp (del.map (handleDbField1 st.reg))] }
    with hst1
  have hmem : ∀ m ∈ del, dmem st1.reg.fields m = true := by
    intro m hm
    rw [hdel] at hm
    unfold deletableOf at hm
    have := List.of_mem_filter hm
    exact (Bool.and_eq_true _ _).mp this |>.2
  have hndd : del.Nodup := by
    rw [hdel]
    exact List.Nodup.filter _ hnd
  obtain ⟨st2, he2, hs2, hv2, ha2⟩ := deleteSchemaLoop_ok isFrames del st1
    hmem hndd
  rw [he2]
  refine ⟨_, rfl, ?_, ?_, ?_⟩
  · rw [show (saveDoc { st2 with doc := { st2.doc with app_config :=
        { st2.doc.app_config with deleteCalls :=
            st2.doc.app_config.deleteCalls ++ [fns] } } }).doc.app_config.deleteCalls
      = st2.doc.app_config.deleteCalls ++ [fns] from rfl, ha2]
  · unfold saveDoc
    rw [List.length_append, hv2]
    rfl
  · rw [show (saveDoc { st2 with doc := { st2.doc with app_config :=
        { st2.doc.app_config with deleteCalls :=
            st2.doc.app_config.deleteCalls ++ [fns] } } }).storage
      = st2.storage from rfl, hs2]

/-- C10 counterexample: a tolerant delete request with a skipped default field
(`id`) and a duplicated deletable field (`a`) unsets storage but then raises
mid-way through the schema update, so the app-config path deletion is never
applied and the dataset document is never saved — contradicting the claim that
one deletable field suffices for both. -/
theorem delete_fields_appconfig_counterexample :
    (deleteFields envW false ["id", "a", "a"] 1 stB).1
      = .error (.keyError "a") ∧
    (deleteFields envW false ["id", "a", "a"] 1 stB).2.storage
      = [.unsetOp ["a", "a"]] ∧
    (deleteFields envW false ["id", "a", "a"] 1 stB).2.doc.app_config.deleteCalls
      = [] ∧
    (deleteFields envW false ["id", "a", "a"] 1 stB).2.savedDocs = [] ∧
    deletableOf envW false stB ["id", "a", "a"] = ["a", "a"] :=
  ⟨rfl, rfl, rfl, rfl, rfl⟩

/-- C10 (amended): for a tolerant delete request with distinct names, if no
requested field is deletable the call returns leaving everything untouched;
otherwise it succeeds, the app-config path deletion is recorded for the full
original request list (not only the deleted fields), the document is saved
once, and storage receives one unset of exactly the deletable fields. -/
theorem delete_fields_appconfig (env : Env) (isFrames : Bool)
    (fns : List String) (lvl : Nat) (st : GState)
    (hlvl : (lvl == 0) = false) (hnd : fns.Nodup) :
    (deletableOf env isFrames st fns = [] →
      deleteFields env isFrames fns lvl st = (.ok (), st)) ∧
    (deletableOf env isFrames st fns ≠ [] →
      ∃ st2, deleteFields env isFrames fns lvl st = (.ok (), st2) ∧
        st2.doc.app_config.deleteCalls
          = st.doc.app_config.deleteCalls ++ [fns] ∧
        st2.savedDocs.length = st.savedDocs.length + 1 ∧
        st2.storage = st.storage ++ [.unsetOp
          ((deletableOf env isFrames st fns).map (handleDbField1 st.reg))]) :=
  ⟨fun hdel => deleteFields_tolerant_empty env isFrames fns lvl st hlvl hdel,
   fun hne => deleteFields_tolerant_ok env isFrames fns lvl st hlvl hnd hne⟩

/-- Witness for C10 at a concrete state: deleting `[id, a]` tolerantly skips
the default `id`, unsets `a` in storage, records the full request in the app
config, and saves once. -/
theorem delete_fields_appconfig_witness :
    ∃ st2, deleteFields envW false ["id", "a"] 1 stB = (.ok (), st2) ∧
      st2.doc.app_config.deleteCalls
        = stB.doc.app_config.deleteCalls ++ [["id", "a"]] ∧
      st2.savedDocs.length = stB.savedDocs.length + 1 ∧
      st2.storage = stB.storage ++ [.unsetOp
        ((deletableOf envW false stB ["id", "a"]).map (handleDbField1 stB.reg))] :=
  (delete_fields_appconfig envW false ["id", "a"] 1 stB rfl (by decide)).2
    (by decide)

/-- C6: a default field in a batch: (1) the per-pair rename validation flags a
default old name with the immutable-field error before any other check, and
`_rename_fields` has no tolerance parameter; (2) any rename request containing
a default old name errors; (3) any delete request containing a default field
errors at error level 0; and (4) at tolerant levels the default field is
skipped while the other deletable requested fields are still physically
deleted. -/
theorem default_field_rename_delete :
    (∀ (env : Env) (media : String) (isFrames : Bool) (defaults : List String)
      (reg : Registry) (d nfn : String), defaults.contains d = true →
      pairBadRename env media isFrames defaults reg (d, nfn)
        = some (.defaultField d)) ∧
    (∀ (env : Env) (isFrames : Bool) (fns nfns : List String) (st : GState)
      (d : String),
      (getDefaultFields env none isFrames).contains d = true → d ∈ fns →
      fns.length = nfns.length →
      ∃ e, (renameFields env isFrames fns nfns st).1 = .error e) ∧
    (∀ (env : Env) (isFrames : Bool) (fns : List String) (st : GState)
      (d : String),
      (getDefaultFields env (some st.doc) isFrames).contains d = true →
      d ∈ fns → ∃ e, (deleteFields env isFrames fns 0 st).1 = .error e) ∧
    (∀ (env : Env) (isFrames : Bool) (fns : List String) (st : GState)
      (d : String) (lvl : Nat), (lvl == 0) = false → fns.Nodup →
      (getDefaultFields env (some st.doc) isFrames).contains d = true →
      d ∈ fns →
      d ∉ deletableOf env isFrames st fns ∧
      (deletableOf env isFrames st fns ≠ [] →
        ∃ st2, deleteFields env isFrames fns lvl st = (.ok (), st2) ∧
          st2.storage = st.storage ++ [.unsetOp
            ((deletableOf env isFrames st fns).map (handleDbField1 st.reg))])) := by
  refine ⟨?_, ?_, ?_, ?_⟩
  · intro env media isFrames defaults reg d nfn h
    unfold pairBadRename
    dsimp only
    rw [h, if_pos rfl]
  · intro env isFrames fns nfns st d hd hmem hlen
    have hmem2 : d ∈ (fns.zip nfns).map Prod.fst := by
      rw [List.map_fst_zip fns nfns (le_of_eq hlen)]
      exact hmem
    obtain ⟨e, hfb⟩ := firstBad_of_default env st.doc.media_type isFrames
      (getDefaultFields env none isFrames) st.reg (fns.zip nfns) d hd hmem2
    obtain ⟨gf2, hv⟩ := renameValidate_err env st.doc.media_type isFrames
      (getDefaultFields env none isFrames) st.reg (fns.zip nfns) e hfb
      st.doc.group_field
    refine ⟨e, ?_⟩
    unfold renameFields
    dsimp only
    rw [hv]
  · intro env isFrames fns st d hd hmem
    obtain ⟨e, he⟩ := scanDeletes_raises
      (getDefaultFields env (some st.doc) isFrames) st.reg fns d hd hmem
    refine ⟨e, ?_⟩
    unfold deleteFields
    dsimp only
    rw [he]
  · intro env isFrames fns st d lvl hlvl hnd hd hmem
    constructor
    · intro hc
      unfold deletableOf at hc
      have := List.of_mem_filter hc
      have h2 := (Bool.and_eq_true _ _).mp this |>.1
      rw [hd] at h2
      cases h2
    · intro hne
      obtain ⟨st2, h1, _, _, h4⟩ := deleteFields_tolerant_ok env isFrames fns
        lvl st hlvl hnd hne
      exact ⟨st2, h1, h4⟩

/-- Witness for C6 at concrete states: renaming `[id]` errors; deleting `[id]`
at level 0 errors; tolerant deletion of `[id, a]` skips `id` and unsets `a`. -/
theorem default_field_rename_delete_witness :
    pairBadRename envW "image" false ["id"] regB ("id", "z")
      = some (.defaultField "id") ∧
    (∃ e, (renameFields envW false ["id"] ["z"] stB).1 = .error e) ∧
    (∃ e, (deleteFields envW false ["id", "a"] 0 stB).1 = .error e) ∧
    ("id" ∉ deletableOf envW false stB ["id", "a"] ∧
      (deletableOf envW false stB ["id", "a"] ≠ [] →
        ∃ st2, deleteFields envW false ["id", "a"] 1 stB = (.ok (), st2) ∧
          st2.storage = stB.storage ++ [.unsetOp
            ((deletableOf envW false stB ["id", "a"]).map
              (handleDbField1 stB.reg))])) := by
  refine ⟨?_, ?_, ?_, ?_⟩
  · exact default_field_rename_delete.1 envW "image" false ["id"] regB "id" "z"
      (by decide)
  · exact default_field_rename_delete.2.1 envW false ["id"] ["z"] stB "id"
      (by decide) (by decide) rfl
  · exact default_field_rename_delete.2.2.1 envW false ["id", "a"] stB "id"
      (by decide) (by decide)
  · exact default_field_rename_delete.2.2.2 envW false ["id", "a"] stB "id" 1
      rfl (by decide) (by decide) (by decide)

/-- The C2 counterexample descriptor: logical name `a`, unrelated storage name
`x`. -/
def fC2x : Field := .mk "a" (some "x") (.scalarK "StringField") false false

/-- The C2 counterexample registry. -/
def regC2x : Registry := ⟨[("a", fC2x)], ["a"]⟩

/-- C2 counterexample: renaming `a`→`b`→`a` for a field whose storage name was
`x` ends with storage name `a`, not the original `x` — the rename recomputes
the storage name from the naming convention and discards any other value, so
the claim fails for a field whose storage name is neither absent, nor the
logical name, nor its underscore-prefixed form. -/
theorem rename_roundtrip_counterexample :
    (match renameFieldReg regC2x "a" "b" with
     | .ok (r2, _) =>
         match renameFieldReg r2 "b" "a" with
         | .ok (r3, _) => (dget r3.fields "a").map Field.db_field
         | .error _ => none
     | .error _ => none) = some (some "a") ∧
    fC2x.db_field = some "x" ∧ (some "a" : Option String) ≠ some "x" := by
  refine ⟨rfl, rfl, by decide⟩

/-- The C2 witness descriptor: an ObjectId field with the underscore-prefixed
storage-name convention. -/
def fC2w : Field := .mk "a" (some "_a") .objectIdK false false

/-- The C2 witness registry. -/
def regC2w : Registry := ⟨[("a", fC2w)], ["a"]⟩

/-- Witness for C2 at a concrete registry: the `a`→`b`→`a` round trip restores
the underscore-convention descriptor exactly. -/
theorem rename_roundtrip_restores_witness :
    ∃ reg2 g, renameFieldReg regC2w "a" "b" = .ok (reg2, g) ∧
      g.name = "b" ∧
      (fC2w.db_field = none → g.db_field = none) ∧
      (fC2w.db_field = some ("_" ++ "a") → g.db_field = some ("_" ++ "b")) ∧
      ∃ reg3, renameFieldReg reg2 "b" "a" = .ok (reg3, fC2w) ∧
        dget reg3.fields "a" = some fC2w :=
  rename_roundtrip_restores regC2w "a" "b" fC2w rfl rfl
    (Or.inr (Or.inr (by decide)))

/-- A concrete scalar field for the C3 witness. -/
def fC3w : Field := .mk "a" none (.scalarK "StringField") false false

/-- The state of the C3 witness: scalar field `a` present. -/
def stC3w : GState :=
  ⟨⟨[("a", fC3w)], ["a"]⟩,
   ⟨"image", none, [FieldDoc.ofField fC3w], [], ⟨[], []⟩⟩, [], []⟩

/-- Witness for C3 at a concrete state: re-merging the identical scalar
descriptor for `a` returns `False` and changes nothing. -/
theorem merge_idempotent_witness :
    mergeFieldSchema envW false [("a", fC3w)] true true true stC3w
      = (.ok false, stC3w) := by
  have h := merge_idempotent envW false stC3w "a" fC3w (by rfl) (by rfl)
    (by intro hc; exact absurd hc.1 (by decide))
  exact h

end FO
